import Mathlib

/-!
# grpc-learn: laptop catalogue service

A shallow embedding of the Go package `service` (files `laptop_store.go`,
`rate_store.go`, `laptop_server.go`) together with the properties of its
stores and handlers.

Conventions of the embedding

* Go maps are association lists with at most one entry per key; `range` over a
  map visits the entries in an order chosen by the runtime, so every loop over
  a map takes the visiting order as an argument.
* `uint32` and `uint64` are natural numbers reduced modulo `2^32` and `2^64`
  at every arithmetic operation.
* `float64` is the IEEE 754 binary64 bit pattern; comparison, addition and
  division are defined on the bit patterns (round to nearest, ties to even).
* A mutex-protected method is one atomic step: a function from the state
  before the call to the result and the state after it.
-/

namespace GrpcLearn

/-! ## Go maps with string keys -/

/-- A Go `map[string]α`: the list of its entries. -/
abbrev GoMap (α : Type) := List (String × α)

namespace GoMap

variable {α : Type}

/-- The lookup `m[k]` with the comma-ok result folded into an `Option`. -/
def get : GoMap α → String → Option α
  | [], _ => none
  | (k', v) :: m, k => if k' = k then some v else get m k

/-- The assignment `m[k] = v`: overwrite the entry of `k`, or add one. -/
def set : GoMap α → String → α → GoMap α
  | [], k, v => [(k, v)]
  | (k', v') :: m, k, v => if k' = k then (k, v) :: m else (k', v') :: set m k v

/-- The keys of the map, in entry order. -/
def keys (m : GoMap α) : List String := m.map Prod.fst

/-- Every key occurs once: the shape of every map built by `set` from `[]`. -/
def WF (m : GoMap α) : Prop := m.keys.Nodup

end GoMap

/-! ## IEEE 754 binary64 -/

/-- A Go `float64`, as its 64-bit pattern (read modulo `2^64`). -/
structure F64 where
  bits : Nat
  deriving DecidableEq, Repr

namespace F64

/-- The sign bit. -/
def sign (x : F64) : Bool := decide ((x.bits % 2 ^ 64) / 2 ^ 63 = 1)

/-- The biased exponent field, 11 bits. -/
def expField (x : F64) : Nat := (x.bits / 2 ^ 52) % 2 ^ 11

/-- The fraction field, 52 bits. -/
def fracField (x : F64) : Nat := x.bits % 2 ^ 52

/-- Not-a-number: exponent all ones, fraction non-zero. -/
def isNaN (x : F64) : Bool := decide (x.expField = 2047) && decide (x.fracField ≠ 0)

/-- Infinity: exponent all ones, fraction zero. -/
def isInf (x : F64) : Bool := decide (x.expField = 2047) && decide (x.fracField = 0)

/-- Positive or negative zero. -/
def isZero (x : F64) : Bool := decide (x.bits % 2 ^ 63 = 0)

/-- An integer that orders the non-NaN values as IEEE 754 does: the magnitude
bits, negated under the sign bit, so that `-0` and `+0` coincide. -/
def key (x : F64) : Int :=
  if x.sign then -((x.bits % 2 ^ 63 : Nat) : Int) else ((x.bits % 2 ^ 63 : Nat) : Int)

/-- Go `x < y`: false as soon as an operand is NaN. -/
def lt (x y : F64) : Bool := !x.isNaN && !y.isNaN && decide (x.key < y.key)

/-- Go `x <= y`: false as soon as an operand is NaN. -/
def le (x y : F64) : Bool := !x.isNaN && !y.isNaN && decide (x.key ≤ y.key)

/-- Go `x > y`. -/
def gt (x y : F64) : Bool := lt y x

/-- Go `x >= y`. -/
def ge (x y : F64) : Bool := le y x

/-- The value `+0`, the zero value of `float64`. -/
def zero : F64 := ⟨0⟩

/-- The quiet NaN produced by invalid operations (payloads are not tracked). -/
def nan : F64 := ⟨0x7FF8000000000000⟩

/-- Infinity of the given sign. -/
def inf (neg : Bool) : F64 := ⟨(if neg then 2 ^ 63 else 0) + 0x7FF0000000000000⟩

/-- Zero of the given sign. -/
def signedZero (neg : Bool) : F64 := ⟨if neg then 2 ^ 63 else 0⟩

/-- The significand of a finite value as an integer (hidden bit included). -/
def mant (x : F64) : Nat := if x.expField = 0 then x.fracField else 2 ^ 52 + x.fracField

/-- The exponent of the last place of a finite value: `|x| = mant * 2 ^ ulpExp`. -/
def ulpExp (x : F64) : Int := if x.expField = 0 then -1074 else (x.expField : Int) - 1075

/-- Number of binary digits of `m`, by at most `fuel` halvings. -/
def bitLenAux : Nat → Nat → Nat
  | 0, _ => 0
  | fuel + 1, m => if m = 0 then 0 else bitLenAux fuel (m / 2) + 1

/-- Number of binary digits of `m`. -/
def bitLen (m : Nat) : Nat := bitLenAux m m

/-- Round `m * 2 ^ e` (plus, when `sticky`, a positive amount below `2 ^ e`)
to the nearest binary64 of sign `neg`, ties to even; `m` is positive, and
`sticky` is only used with `m` of more than 55 digits. -/
def roundPack (neg : Bool) (m : Nat) (e : Int) (sticky : Bool) : F64 :=
  let q : Int := max (e + (bitLen m : Int) - 53) (-1074)
  let r : Nat :=
    if q ≤ e then m * 2 ^ (e - q).toNat
    else
      let sh := (q - e).toNat
      let m0 := m / 2 ^ sh
      let rem := m % 2 ^ sh
      let half := 2 ^ (sh - 1)
      if rem > half ∨ (rem = half ∧ (sticky ∨ m0 % 2 = 1)) then m0 + 1 else m0
  let b : Nat := (q + 1074).toNat * 2 ^ 52 + r
  if b ≥ 2047 * 2 ^ 52 then inf neg else ⟨(if neg then 2 ^ 63 else 0) + b⟩

/-- Go `x + y` on `float64`. -/
def add (x y : F64) : F64 :=
  if x.isNaN || y.isNaN then nan
  else if x.isInf then (if y.isInf && (x.sign != y.sign) then nan else inf x.sign)
  else if y.isInf then inf y.sign
  else
    let e : Int := min x.ulpExp y.ulpExp
    let vx : Int := (x.mant * 2 ^ (x.ulpExp - e).toNat : Nat)
    let vy : Int := (y.mant * 2 ^ (y.ulpExp - e).toNat : Nat)
    let s : Int := (if x.sign then -vx else vx) + (if y.sign then -vy else vy)
    if s = 0 then signedZero (x.sign && y.sign)
    else roundPack (decide (s < 0)) s.natAbs e false

/-- Go `x / y` on `float64`. -/
def div (x y : F64) : F64 :=
  let neg := x.sign != y.sign
  if x.isNaN || y.isNaN then nan
  else if x.isInf then (if y.isInf then nan else inf neg)
  else if y.isInf then signedZero neg
  else if y.isZero then (if x.isZero then nan else inf neg)
  else if x.isZero then signedZero neg
  else
    let n := x.mant * 2 ^ 128
    roundPack neg (n / y.mant) (x.ulpExp - y.ulpExp - 128) (decide (n % y.mant ≠ 0))

/-- Go `float64(n)` for a `uint32` value `n`: exact. -/
def ofUInt32 (n : Nat) : F64 :=
  if n % 2 ^ 32 = 0 then zero else roundPack false (n % 2 ^ 32) 0 false

end F64

/-- The biased exponent of the last place of the result of `roundPack` on
`m * 2 ^ (a - 1074)`. -/
def F64.roundExp (m a : Nat) : Nat := a + F64.bitLen m - 53

/-- The significand that `roundPack` computes for `m * 2 ^ (a - 1074)` without
a sticky bit. -/
def F64.roundMant (m a : Nat) : Nat :=
  if F64.roundExp m a ≤ a then m * 2 ^ (a - F64.roundExp m a)
  else if m % 2 ^ (F64.roundExp m a - a) > 2 ^ (F64.roundExp m a - a - 1) ∨
      (m % 2 ^ (F64.roundExp m a - a) = 2 ^ (F64.roundExp m a - a - 1) ∧
        m / 2 ^ (F64.roundExp m a - a) % 2 = 1)
    then m / 2 ^ (F64.roundExp m a - a) + 1
    else m / 2 ^ (F64.roundExp m a - a)

/-! ## Messages of package `pb` -/

/-- Modelled from the spec: the generated package `pb` is not among the
sources. The units are the six that `toBit` names; `UNKNOWN` stands for every
other value of the enum, among them its zero value. -/
inductive Memory_Unit
  | UNKNOWN | BIT | BYTE | KILOBYTE | MEGABYTE | GIGABYTE | TERABYTE
  deriving DecidableEq, Repr

/-- Modelled from the spec: message `pb.Memory`, a `uint64` value and a unit. -/
structure Memory where
  Value : Nat
  Unit : Memory_Unit
  deriving DecidableEq, Repr

/-- Modelled from the spec: message `pb.CPU`, restricted to the fields the
service reads (`number_cores` is a `uint32`, `min_ghz` a `float64`). -/
structure CPU where
  NumberCores : Nat
  MinGhz : F64
  deriving DecidableEq, Repr

/-- Modelled from the spec: message `pb.Laptop`, restricted to the fields the
service and its client read. `Cpu` and `Ram` are pointers and may be nil. -/
structure Laptop where
  Id : String
  Brand : String
  Name : String
  Cpu : Option CPU
  Ram : Option Memory
  PriceUsd : F64
  deriving DecidableEq, Repr

/-- Modelled from the spec: message `pb.Filter`. -/
structure Filter where
  MaxPriceUsd : F64
  MinCpuCores : Nat
  MinCpuGhz : F64
  MinRam : Option Memory
  deriving DecidableEq, Repr

/-- Generated getter: the value of a memory, `0` through a nil pointer. -/
def Memory.GetValue (memory : Option Memory) : Nat :=
  match memory with
  | none => 0
  | some m => m.Value % 2 ^ 64

/-- Generated getter: the unit of a memory, the zero value through nil. -/
def Memory.GetUnit (memory : Option Memory) : Memory_Unit :=
  match memory with
  | none => Memory_Unit.UNKNOWN
  | some m => m.Unit

/-- Generated getter: the number of cores, `0` through a nil pointer. -/
def CPU.GetNumberCores (cpu : Option CPU) : Nat :=
  match cpu with
  | none => 0
  | some c => c.NumberCores % 2 ^ 32

/-- Generated getter: the minimal clock speed, `0` through a nil pointer. -/
def CPU.GetMinGhz (cpu : Option CPU) : F64 :=
  match cpu with
  | none => F64.zero
  | some c => c.MinGhz

/-- Generated getter on a filter pointer. -/
def Filter.GetMaxPriceUsd (filter : Option Filter) : F64 :=
  match filter with
  | none => F64.zero
  | some f => f.MaxPriceUsd

/-- Generated getter on a filter pointer. -/
def Filter.GetMinCpuCores (filter : Option Filter) : Nat :=
  match filter with
  | none => 0
  | some f => f.MinCpuCores % 2 ^ 32

/-- Generated getter on a filter pointer. -/
def Filter.GetMinCpuGhz (filter : Option Filter) : F64 :=
  match filter with
  | none => F64.zero
  | some f => f.MinCpuGhz

/-- Generated getter on a filter pointer. -/
def Filter.GetMinRam (filter : Option Filter) : Option Memory :=
  match filter with
  | none => none
  | some f => f.MinRam

/-! ## Errors, status codes and contexts -/

/-- A Go `error` value returned by a store: the sentinel `ErrAlreadyExist`,
an error wrapping another one (`%w`), or any other error. -/
inductive GoError
  | ErrAlreadyExist
  | wrap (msg : String) (inner : GoError)
  | other (msg : String)
  deriving DecidableEq, Repr

/-- The test `errors.Is(err, ErrAlreadyExist)`: walk the chain of wrapped errors. -/
def GoError.isErrAlreadyExist : GoError → Bool
  | GoError.ErrAlreadyExist => true
  | GoError.wrap _ inner => inner.isErrAlreadyExist
  | GoError.other _ => false

/-- The gRPC status codes the service returns (the message text of a status
is not modelled). -/
inductive Code
  | OK | Canceled | Unknown | InvalidArgument | DeadlineExceeded | NotFound
  | AlreadyExists | Internal
  deriving DecidableEq, Repr

/-- The value of `ctx.Err()`. -/
inductive CtxErr
  | nil | Canceled | DeadlineExceeded
  deriving DecidableEq, Repr

/-- A context as seen by a handler: the answer of the `k`-th call of `ctx.Err()`. -/
abbrev Context := Nat → CtxErr

/-- Function `contextErr` of `laptop_server.go`, applied to one reading of `ctx.Err()`. -/
def contextErr (e : CtxErr) : Option Code :=
  match e with
  | CtxErr.Canceled => some Code.Canceled
  | CtxErr.DeadlineExceeded => some Code.DeadlineExceeded
  | CtxErr.nil => none

/-! ## `laptop_store.go` -/

/-- Function `toBit`: shifts on `uint64` drop the bits moved past bit 63. -/
def toBit (memory : Option Memory) : Nat :=
  let value := Memory.GetValue memory
  match Memory.GetUnit memory with
  | Memory_Unit.BIT => value
  | Memory_Unit.BYTE => (value <<< 3) % 2 ^ 64
  | Memory_Unit.KILOBYTE => (value <<< 13) % 2 ^ 64
  | Memory_Unit.MEGABYTE => (value <<< 23) % 2 ^ 64
  | Memory_Unit.GIGABYTE => (value <<< 33) % 2 ^ 64
  | Memory_Unit.TERABYTE => (value <<< 43) % 2 ^ 64
  | Memory_Unit.UNKNOWN => 0

/-- Function `isQualified`. -/
def isQualified (filter : Option Filter) (laptop : Laptop) : Bool :=
  if F64.gt laptop.PriceUsd (Filter.GetMaxPriceUsd filter) then false
  else if CPU.GetNumberCores laptop.Cpu < Filter.GetMinCpuCores filter then false
  else if F64.lt (CPU.GetMinGhz laptop.Cpu) (Filter.GetMinCpuGhz filter) then false
  else if toBit laptop.Ram < toBit (Filter.GetMinRam filter) then false
  else true

/-- Type `InMemoryLaptopStore`: the map `data` (the mutex is the atomicity of
each method). -/
structure InMemoryLaptopStore where
  data : GoMap Laptop
  deriving DecidableEq, Repr

/-- Function `NewInMemoryLaptopStore`. -/
def NewInMemoryLaptopStore : InMemoryLaptopStore := ⟨[]⟩

namespace InMemoryLaptopStore

/-- Method `Save`: the returned error and the store after the call. -/
def Save (m : InMemoryLaptopStore) (laptop : Laptop) : Option GoError × InMemoryLaptopStore :=
  match m.data.get laptop.Id with
  | some _ => (some GoError.ErrAlreadyExist, m)
  | none => (none, ⟨m.data.set laptop.Id laptop⟩)

/-- Method `Find`: the laptop pointer (nil when absent) and the error, always nil. -/
def Find (m : InMemoryLaptopStore) (id : String) : Option Laptop × Option GoError :=
  match m.data.get id with
  | some v => (some v, none)
  | none => (none, none)

/-- What a run of `Search` did: the error returned, the laptops the callback
was invoked on, in order, and the number of readings of `ctx.Err()`. -/
structure SearchResult where
  err : Option GoError
  calls : List Laptop
  polls : Nat
  deriving DecidableEq, Repr

/-- The loop of `Search` over the entries still to visit. `found k l` is what
the callback returns when invoked on `l` after `k` earlier invocations. -/
def searchLoop (ctx : Context) (filter : Option Filter) (found : Nat → Laptop → Option GoError) :
    List (String × Laptop) → Nat → List Laptop → SearchResult
  | [], polls, calls => ⟨none, calls, polls⟩
  | (_, laptop) :: rest, polls, calls =>
    if ctx polls = CtxErr.Canceled then ⟨none, calls, polls + 1⟩
    else if ctx (polls + 1) = CtxErr.DeadlineExceeded then ⟨none, calls, polls + 2⟩
    else if isQualified filter laptop then
      match found calls.length laptop with
      | some e => ⟨some e, calls ++ [laptop], polls + 2⟩
      | none => searchLoop ctx filter found rest (polls + 2) (calls ++ [laptop])
    else searchLoop ctx filter found rest (polls + 2) calls

/-- Method `Search`; `visit` is the order in which `range m.data` yields the
entries of the map, a rearrangement of `m.data`. -/
def Search (_m : InMemoryLaptopStore) (visit : List (String × Laptop)) (ctx : Context)
    (filter : Option Filter) (found : Nat → Laptop → Option GoError) : SearchResult :=
  searchLoop ctx filter found visit 0 []

/-- The states of a store that `Save` can build: one entry per key, each
laptop stored under its own id. -/
def WF (m : InMemoryLaptopStore) : Prop :=
  m.data.WF ∧ ∀ e ∈ m.data, e.2.Id = e.1

end InMemoryLaptopStore

/-! ## `rate_store.go` -/

/-- Type `Rating`: a `uint32` count and a `float64` sum. -/
structure Rating where
  Count : Nat
  Sum : F64
  deriving DecidableEq, Repr

/-- Apply `f` to the cell at address `p` of a heap of ratings. -/
def heapModify (f : Rating → Rating) : List Rating → Nat → List Rating
  | [], _ => []
  | r :: h, 0 => f r :: h
  | r :: h, p + 1 => r :: heapModify f h p

/-- Type `InMemoryRatingStore`. The map holds pointers, so the store is the
`Rating` objects allocated so far (`heap`, a pointer being a position in it)
and the map `rating` from laptop id to pointer. -/
structure InMemoryRatingStore where
  heap : List Rating
  rating : GoMap Nat
  deriving DecidableEq, Repr

/-- Function `NewInMemoryRatingStore`. -/
def NewInMemoryRatingStore : InMemoryRatingStore := ⟨[], []⟩

namespace InMemoryRatingStore

/-- What `Add` returns: the pointer, the error and the store after the call. -/
structure AddResult where
  rating : Nat
  err : Option GoError
  store : InMemoryRatingStore
  deriving DecidableEq, Repr

/-- Method `Add`. A missing key reads as the nil pointer, and a new object is
allocated; otherwise the object pointed to is updated in place. The pointer
is stored back in the map and returned. -/
def Add (m : InMemoryRatingStore) (laptopId : String) (score : F64) : AddResult :=
  match m.rating.get laptopId with
  | none =>
    ⟨m.heap.length, none, ⟨m.heap ++ [⟨1, score⟩], m.rating.set laptopId m.heap.length⟩⟩
  | some p =>
    ⟨p, none,
      ⟨heapModify (fun r => ⟨(r.Count + 1) % 2 ^ 32, F64.add r.Sum score⟩) m.heap p,
        m.rating.set laptopId p⟩⟩

/-- Reading through a pointer in the given state of the store. -/
def deref (m : InMemoryRatingStore) (p : Nat) : Option Rating := m.heap[p]?

/-- The rating the store holds for an id: the object its pointer points to. -/
def view (m : InMemoryRatingStore) (id : String) : Option Rating :=
  (m.rating.get id).bind m.deref

/-- A sequence of calls of `Add`, each given by its id and score, run in order. -/
def runAdds (m : InMemoryRatingStore) : List (String × F64) → InMemoryRatingStore
  | [] => m
  | (id, score) :: calls => runAdds (m.Add id score).store calls

/-- The states `Add` can build: every pointer of the map points into the
heap, and two ids never share an object. -/
def WF (m : InMemoryRatingStore) : Prop :=
  (∀ id p, m.rating.get id = some p → p < m.heap.length) ∧
  (∀ id id' p, m.rating.get id = some p → m.rating.get id' = some p → id = id')

end InMemoryRatingStore

/-- The scores given to `id` in a sequence of calls of `Add`, in call order. -/
def scoresOf (id : String) (calls : List (String × F64)) : List F64 :=
  (calls.filter (fun c => decide (c.1 = id))).map Prod.snd

/-- The sum `s1 + ... + sN` as Go evaluates it: from the left, in `float64`. -/
def sumScores : List F64 → F64
  | [] => F64.zero
  | s :: rest => rest.foldl F64.add s

/-- One `Add` on the rating held for an id. -/
def addStep (r : Option Rating) (score : F64) : Rating :=
  match r with
  | none => ⟨1, score⟩
  | some r => ⟨(r.Count + 1) % 2 ^ 32, F64.add r.Sum score⟩

/-! ## The interfaces of the stores and package `uuid` -/

/-- Interface `LaptopStore` as the handlers use it, over a store state `σ`:
`Save` returns the error and the state after the call, `Find` the pointer
(nil when absent) and the error. -/
structure LaptopStore (σ : Type) where
  Save : σ → Laptop → Option GoError × σ
  Find : σ → String → Option Laptop × Option GoError

/-- The store `InMemoryLaptopStore` behind the interface. -/
def InMemoryLaptopStore.asLaptopStore : LaptopStore InMemoryLaptopStore :=
  ⟨InMemoryLaptopStore.Save, InMemoryLaptopStore.Find⟩

/-- A Go `[]byte`. -/
abbrev Bytes := List UInt8

/-- What `ImageStore.Save` returns: the image id, the error, the state after. -/
structure ImageSaveResult (σ : Type) where
  id : String
  err : Option GoError
  store : σ

/-- Interface `ImageStore` over a store state `σ`. The implementation
`DiskImageStore` draws a random id and writes a file; its outcome is whatever
the function given here returns. -/
structure ImageStore (σ : Type) where
  Save : σ → String → String → Bytes → ImageSaveResult σ

/-- What `RateStore.Add` returns: the pointer (nil is `none`), the error and
the state after. -/
structure RateAddResult (σ : Type) where
  rating : Option Nat
  err : Option GoError
  store : σ

/-- Interface `RateStore` over a store state `σ`; `deref` reads the `Rating`
object behind a pointer in a given state. -/
structure RateStore (σ : Type) where
  Add : σ → String → F64 → RateAddResult σ
  deref : σ → Nat → Option Rating

/-- The store `InMemoryRatingStore` behind the interface. -/
def InMemoryRatingStore.asRateStore : RateStore InMemoryRatingStore :=
  ⟨fun m id score => ⟨some (m.Add id score).rating, (m.Add id score).err, (m.Add id score).store⟩,
    InMemoryRatingStore.deref⟩

/-- A hexadecimal digit, as the table of `xtob` in package `uuid` accepts it. -/
def isHexDigit (c : Char) : Bool :=
  (decide ('0' ≤ c) && decide (c ≤ '9')) || (decide ('a' ≤ c) && decide (c ≤ 'f'))
    || (decide ('A' ≤ c) && decide (c ≤ 'F'))

/-- The form `xxxxxxxx-xxxx-xxxx-xxxx-xxxxxxxxxxxx` at the head of `cs`. -/
def isCanonicalUUID (cs : List Char) : Bool :=
  (List.range 36).all fun i =>
    if i = 8 ∨ i = 13 ∨ i = 18 ∨ i = 23 then decide (cs.getD i ' ' = '-')
    else isHexDigit (cs.getD i ' ')

/-- Package `github.com/google/uuid` is a dependency, not part of the sources,
so the handlers take its parser as an argument. This parser is the one of
the claims on generated ids and of the concrete examples: `uuidParse s` tells
whether `uuid.Parse(s)` returns no error, following the documentation of the
package: the 36-character form, the same after `urn:uuid:`, the same between
two arbitrary characters, or 32 hexadecimal digits. A string holding a character outside ASCII is never
accepted. -/
def uuidParse (s : String) : Bool :=
  let cs := s.data
  if cs.all (fun c => decide (c.toNat < 128)) then
    if cs.length = 36 then isCanonicalUUID cs
    else if cs.length = 45 then
      decide ((cs.take 9).map Char.toLower = "urn:uuid:".data) && isCanonicalUUID (cs.drop 9)
    else if cs.length = 38 then isCanonicalUUID (cs.drop 1)
    else if cs.length = 32 then cs.all isHexDigit
    else false
  else false

/-- The table `hextable` of package `encoding/hex`. -/
def hextable : List Char :=
  ['0', '1', '2', '3', '4', '5', '6', '7', '8', '9', 'a', 'b', 'c', 'd', 'e', 'f']

/-- The digit of `hextable` for the low four bits of `n`. -/
def hexDigit (n : Nat) : Char := hextable.getD (n % 16) '0'

/-- Function `hex.Encode`: two digits for each byte, high four bits first. -/
def hexEncode : List Nat → List Char
  | [] => []
  | b :: rest => hexDigit (b / 16) :: hexDigit b :: hexEncode rest

/-- Type `uuid.UUID`, an array of 16 bytes: byte `i` is entry `i` of the list
read modulo 256, and 0 past its end. -/
structure UUID where
  bytes : List Nat
  deriving DecidableEq, Repr

/-- Byte `i` of a UUID. -/
def UUID.byte (u : UUID) (i : Nat) : Nat := u.bytes.getD i 0 % 256

/-- Method `UUID.String` of package `uuid`: the bytes in hexadecimal, in groups
of 4, 2, 2, 2 and 6 bytes separated by `-`. -/
def UUID.String (u : UUID) : String :=
  String.mk
    (hexEncode [u.byte 0, u.byte 1, u.byte 2, u.byte 3] ++ '-' ::
      hexEncode [u.byte 4, u.byte 5] ++ '-' ::
      hexEncode [u.byte 6, u.byte 7] ++ '-' ::
      hexEncode [u.byte 8, u.byte 9] ++ '-' ::
      hexEncode [u.byte 10, u.byte 11, u.byte 12, u.byte 13, u.byte 14, u.byte 15])

/-! ## `laptop_server.go`: `CreateLaptop` -/

/-- Message `pb.CreateLaptopRequest`; the laptop pointer may be nil. -/
structure CreateLaptopRequest where
  Laptop : Option Laptop
  deriving DecidableEq, Repr

/-- Message `pb.CreateLaptopResponse`. -/
structure CreateLaptopResponse where
  Id : String
  deriving DecidableEq, Repr

/-- What a call of `CreateLaptop` did: the response and the status code of the
error returned (`none` is nil), whether it panicked on a nil laptop, the
laptops `Save` was called on, and the store after the call. -/
structure CreateLaptopResult (σ : Type) where
  res : Option CreateLaptopResponse
  err : Option Code
  panicked : Bool
  saves : List Laptop
  store : σ

/-- Method `LaptopServer.CreateLaptop`. `parse` is `uuid.Parse` (true when it
returns no error), `newRandom` the string of the id `uuid.NewRandom` draws
(`none` when it returns an error); `len(id) > 0` is `id ≠ ""`. The context is
read once, by `contextErr`. -/
def CreateLaptop {σ : Type} (S : LaptopStore σ) (parse : String → Bool)
    (newRandom : Option String) (ctx : Context) (st : σ) (req : CreateLaptopRequest) :
    CreateLaptopResult σ :=
  match req.Laptop with
  | none => ⟨none, none, true, [], st⟩
  | some laptop =>
    let withId : Except Code Laptop :=
      if laptop.Id ≠ "" then
        if parse laptop.Id then Except.ok laptop else Except.error Code.InvalidArgument
      else
        match newRandom with
        | none => Except.error Code.Internal
        | some id => Except.ok { laptop with Id := id }
    match withId with
    | Except.error code => ⟨none, some code, false, [], st⟩
    | Except.ok laptop =>
      match contextErr (ctx 0) with
      | some code => ⟨none, some code, false, [], st⟩
      | none =>
        match S.Save st laptop with
        | (some err, st') =>
          ⟨none, some (if err.isErrAlreadyExist then Code.AlreadyExists else Code.Internal),
            false, [laptop], st'⟩
        | (none, st') => ⟨some ⟨laptop.Id⟩, none, false, [laptop], st'⟩

/-! ## `laptop_server.go`: the streaming handlers -/

/-- The inbound side of a stream: the messages that successive calls of
`Recv` return, after which `Recv` returns `io.EOF`, or a transport error when
`failed` is set. -/
structure Inbound (α : Type) where
  msgs : List α
  failed : Bool

/-- Constant `maxImageSize`. -/
def maxImageSize : Nat := 1 <<< 20

/-- Message `pb.UploadImageRequest`: the image info, a chunk of data, or
neither. -/
inductive UploadImageRequest
  | Info (LaptopId : String) (ImageType : String)
  | ChunkData (data : Bytes)
  | Empty
  deriving DecidableEq, Repr

/-- Generated getter: the chunk of a message, nil when it carries none. -/
def UploadImageRequest.GetChunkData : UploadImageRequest → Bytes
  | UploadImageRequest.ChunkData data => data
  | _ => []

/-- Message `pb.UploadImageResponse`; `Size` is a `uint32`. -/
structure UploadImageResponse where
  Id : String
  Size : Nat
  deriving DecidableEq, Repr

/-- What a run of `UploadImage` did: the status code of the error returned
(`none` is nil), whether it panicked, the calls of `ImageStore.Save` (laptop
id, image type, data), the responses sent, the value of `imageSize` at the
end, and the image store after the run. -/
structure UploadImageResult (σ : Type) where
  err : Option Code
  panicked : Bool
  saves : List (String × String × Bytes)
  sent : List UploadImageResponse
  imageSize : Nat
  imageStore : σ

/-- The end of `UploadImage`, after the loop: save the image and answer. -/
def uploadFinish {σ : Type} (I : ImageStore σ) (sendOk : Bool) (laptopId imageType : String)
    (imageData : Bytes) (imageSize : Nat) (is : σ) : UploadImageResult σ :=
  let r := I.Save is laptopId imageType imageData
  match r.err with
  | some _ => ⟨some Code.Internal, false, [(laptopId, imageType, imageData)], [], imageSize, r.store⟩
  | none =>
    if sendOk then
      ⟨none, false, [(laptopId, imageType, imageData)], [⟨r.id, imageSize % 2 ^ 32⟩], imageSize,
        r.store⟩
    else
      ⟨some Code.Unknown, false, [(laptopId, imageType, imageData)], [], imageSize, r.store⟩

/-- The loop of `UploadImage` over the messages still to come; `polls` counts
the readings of the context, `imageData` and `imageSize` are the variables of
that name. -/
def uploadLoop {σ : Type} (I : ImageStore σ) (ctx : Context) (failed sendOk : Bool)
    (laptopId imageType : String) (is : σ) :
    List UploadImageRequest → Nat → Bytes → Nat → UploadImageResult σ
  | [], polls, imageData, imageSize =>
    match contextErr (ctx polls) with
    | some code => ⟨some code, false, [], [], imageSize, is⟩
    | none =>
      if failed then ⟨some Code.Unknown, false, [], [], imageSize, is⟩
      else uploadFinish I sendOk laptopId imageType imageData imageSize is
  | req :: rest, polls, imageData, imageSize =>
    match contextErr (ctx polls) with
    | some code => ⟨some code, false, [], [], imageSize, is⟩
    | none =>
      let chunk := req.GetChunkData
      if imageSize + chunk.length > maxImageSize then
        ⟨some Code.InvalidArgument, false, [], [], imageSize + chunk.length, is⟩
      else
        uploadLoop I ctx failed sendOk laptopId imageType is rest (polls + 1)
          (imageData ++ chunk) (imageSize + chunk.length)

/-- Method `LaptopServer.UploadImage`. `sendOk` tells whether `SendAndClose`
succeeds. A first message that is not an image info makes the handler read
a field through a nil pointer. -/
def UploadImage {σL σI : Type} (L : LaptopStore σL) (I : ImageStore σI) (ls : σL) (is : σI)
    (ctx : Context) (inbound : Inbound UploadImageRequest) (sendOk : Bool) :
    UploadImageResult σI :=
  match inbound.msgs with
  | [] => ⟨some Code.Unknown, false, [], [], 0, is⟩
  | UploadImageRequest.Info laptopId imageType :: rest =>
    match L.Find ls laptopId with
    | (_, some _) => ⟨some Code.Internal, false, [], [], 0, is⟩
    | (none, none) => ⟨some Code.InvalidArgument, false, [], [], 0, is⟩
    | (some _, none) =>
      uploadLoop I ctx inbound.failed sendOk laptopId imageType is rest 0 [] 0
  | _ :: _ => ⟨none, true, [], [], 0, is⟩

/-- Message `pb.RateLaptopRequest`. -/
structure RateLaptopRequest where
  LaptopId : String
  Score : F64
  deriving DecidableEq, Repr

/-- Message `pb.RateLaptopResponse`; `RatedCount` is a `uint32`. -/
structure RateLaptopResponse where
  LaptopId : String
  RatedCount : Nat
  AverageScore : F64
  deriving DecidableEq, Repr

/-- What a run of `RateLaptop` did: the status code of the error returned
(`none` is nil), whether it panicked, the calls of `RateStore.Add`, the
responses sent, and the rating store after the run. -/
structure RateLaptopResult (σ : Type) where
  err : Option Code
  panicked : Bool
  adds : List (String × F64)
  sent : List RateLaptopResponse
  ratingStore : σ

/-- The loop of `RateLaptop` over the requests still to come. `sendOk k` tells
whether the `k`-th call of `Send` succeeds; `polls` counts the readings of the
context; `adds` and `sent` are the calls and responses made so far. -/
def rateLoop {σL σR : Type} (L : LaptopStore σL) (R : RateStore σR) (ls : σL) (ctx : Context)
    (failed : Bool) (sendOk : Nat → Bool) :
    List RateLaptopRequest → Nat → List (String × F64) → List RateLaptopResponse → σR →
      RateLaptopResult σR
  | [], polls, adds, sent, rs =>
    match contextErr (ctx polls) with
    | some code => ⟨some code, false, adds, sent, rs⟩
    | none =>
      if failed then ⟨some Code.Unknown, false, adds, sent, rs⟩
      else ⟨none, false, adds, sent, rs⟩
  | req :: rest, polls, adds, sent, rs =>
    match contextErr (ctx polls) with
    | some code => ⟨some code, false, adds, sent, rs⟩
    | none =>
      match L.Find ls req.LaptopId with
      | (_, some _) => ⟨some Code.Internal, false, adds, sent, rs⟩
      | (none, none) => ⟨some Code.NotFound, false, adds, sent, rs⟩
      | (some _, none) =>
        let r := R.Add rs req.LaptopId req.Score
        match r.err with
        | some _ => ⟨some Code.Internal, false, adds ++ [(req.LaptopId, req.Score)], sent, r.store⟩
        | none =>
          match r.rating.bind (R.deref r.store) with
          | none => ⟨none, true, adds ++ [(req.LaptopId, req.Score)], sent, r.store⟩
          | some rating =>
            let res : RateLaptopResponse :=
              ⟨req.LaptopId, rating.Count, F64.div rating.Sum (F64.ofUInt32 rating.Count)⟩
            if sendOk sent.length then
              rateLoop L R ls ctx failed sendOk rest (polls + 1)
                (adds ++ [(req.LaptopId, req.Score)]) (sent ++ [res]) r.store
            else
              ⟨some Code.Unknown, false, adds ++ [(req.LaptopId, req.Score)], sent, r.store⟩

/-- Method `LaptopServer.RateLaptop`. -/
def RateLaptop {σL σR : Type} (L : LaptopStore σL) (R : RateStore σR) (ls : σL) (rs : σR)
    (ctx : Context) (inbound : Inbound RateLaptopRequest) (sendOk : Nat → Bool) :
    RateLaptopResult σR :=
  rateLoop L R ls ctx inbound.failed sendOk inbound.msgs 0 [] [] rs

/-- The laptops the claim of `Search` describes: price at most the maximum,
at least the minimal cores, clock speed and memory. -/
def meetsFilter (filter : Option Filter) (laptop : Laptop) : Bool :=
  F64.le laptop.PriceUsd (Filter.GetMaxPriceUsd filter)
    && decide (CPU.GetNumberCores laptop.Cpu ≥ Filter.GetMinCpuCores filter)
    && F64.ge (CPU.GetMinGhz laptop.Cpu) (Filter.GetMinCpuGhz filter)
    && decide (toBit laptop.Ram ≥ toBit (Filter.GetMinRam filter))

/-- The shift amount the specification gives for each unit. -/
def unitShift : Memory_Unit → Option Nat
  | Memory_Unit.BIT => some 0
  | Memory_Unit.BYTE => some 3
  | Memory_Unit.KILOBYTE => some 13
  | Memory_Unit.MEGABYTE => some 23
  | Memory_Unit.GIGABYTE => some 33
  | Memory_Unit.TERABYTE => some 43
  | Memory_Unit.UNKNOWN => none

/-- The laptops that none of the four tests of `isQualified` rejects: the
price is not above the maximum, the cores are not below the minimum, the clock
speed is not below the minimum, the memory in bits is not below the minimum. -/
def notRejected (filter : Option Filter) (laptop : Laptop) : Prop :=
  F64.gt laptop.PriceUsd (Filter.GetMaxPriceUsd filter) = false ∧
  Filter.GetMinCpuCores filter ≤ CPU.GetNumberCores laptop.Cpu ∧
  F64.lt (CPU.GetMinGhz laptop.Cpu) (Filter.GetMinCpuGhz filter) = false ∧
  toBit (Filter.GetMinRam filter) ≤ toBit laptop.Ram

/-- The cumulative length of the chunks of a list of messages. -/
def chunkTotal (msgs : List UploadImageRequest) : Nat :=
  (msgs.map fun req => req.GetChunkData.length).sum

/-- The response to the request number `k + 1` of a stream rating one laptop
with the given scores: the count `k + 1` as a `uint32`, and the sum of the
first `k + 1` scores divided by that count. -/
def kthResponse (id : String) (scores : List F64) (k : Nat) : RateLaptopResponse :=
  ⟨id, (k + 1) % 2 ^ 32,
    F64.div (sumScores (scores.take (k + 1))) (F64.ofUInt32 ((k + 1) % 2 ^ 32))⟩

/-- The responses to requests with the scores `scores` for one laptop that
follow earlier requests with the scores `prev` for it. -/
def responsesFrom (id : String) : List F64 → List F64 → List RateLaptopResponse
  | _, [] => []
  | prev, s :: rest =>
    ⟨id, (prev.length + 1) % 2 ^ 32,
      F64.div (sumScores (prev ++ [s])) (F64.ofUInt32 ((prev.length + 1) % 2 ^ 32))⟩
      :: responsesFrom id (prev ++ [s]) rest

/-! ## Concrete inputs -/

/-- A laptop whose price is NaN. -/
def nanLaptop : Laptop :=
  ⟨"5f0c6e1a-3b7d-4c2e-9a41-0d6f8b2c7e11", "brand", "name", none, none, F64.nan⟩

/-- The store holding `nanLaptop` only. -/
def nanStore : InMemoryLaptopStore := (NewInMemoryLaptopStore.Save nanLaptop).2

/-- A filter asking for a price of at most 1000.0 and nothing else. -/
def priceFilter : Filter := ⟨⟨0x408F400000000000⟩, 0, F64.zero, none⟩

/-- A context that is never cancelled. -/
def liveCtx : Context := fun _ => CtxErr.nil

/-- A callback that never fails. -/
def neverFails : Nat → Laptop → Option GoError := fun _ _ => none

/-- The `float64` value 4.0. -/
def four : F64 := ⟨0x4010000000000000⟩

/-- The `float64` value 5.0. -/
def five : F64 := ⟨0x4014000000000000⟩

/-- The `float64` value 4.5. -/
def fourAndHalf : F64 := ⟨0x4012000000000000⟩

/-- The id of the `Add` calls of the examples. -/
def ratedId : String := "5f0c6e1a-3b7d-4c2e-9a41-0d6f8b2c7e11"

/-- A laptop sent without an id. -/
def noIdLaptop : Laptop := ⟨"", "brand", "name", none, none, four⟩

/-- A laptop whose id is not a UUID. -/
def invalidIdLaptop : Laptop := ⟨"invalid-uuid", "brand", "name", none, none, four⟩

/-- A laptop with a valid id and a price of 4.0. -/
def sampleLaptop : Laptop := ⟨ratedId, "brand", "name", none, none, four⟩

/-- The store holding `sampleLaptop` only. -/
def sampleStore : InMemoryLaptopStore := (NewInMemoryLaptopStore.Save sampleLaptop).2

/-- A laptop store whose `Save` always fails with an error of its own. -/
def brokenStore : LaptopStore Unit :=
  ⟨fun st _ => (some (GoError.other "disk full"), st), fun _ _ => (none, none)⟩

/-- An image store that names every image `image-1` and keeps the data saved. -/
def listImageStore : ImageStore (List Bytes) :=
  ⟨fun st _ _ data => ⟨"image-1", none, st ++ [data]⟩⟩

/-- A chunk of `n` zero bytes. -/
def zeroChunk (n : Nat) : Bytes := List.replicate n 0

/-- A stream of three ratings whose second names a laptop that is not stored. -/
def mixedRatings : List RateLaptopRequest :=
  [⟨ratedId, four⟩, ⟨"missing", five⟩, ⟨ratedId, five⟩]

/-- A context that is already canceled. -/
def canceledCtx : Context := fun _ => CtxErr.Canceled

/-- A context that is past its deadline. -/
def expiredCtx : Context := fun _ => CtxErr.DeadlineExceeded

/-- The `float64` value 9.0. -/
def nine : F64 := ⟨0x4022000000000000⟩

/-- The `float64` value -1.0. -/
def minusOne : F64 := ⟨0xBFF0000000000000⟩

/-- The `float64` value 3.0. -/
def three : F64 := ⟨0x4008000000000000⟩

/-- The UUID whose string is `5f0c6e1a-3b7d-4c2e-9a41-0d6f8b2c7e11`. -/
def ratedUUID : UUID :=
  ⟨[0x5f, 0x0c, 0x6e, 0x1a, 0x3b, 0x7d, 0x4c, 0x2e, 0x9a, 0x41, 0x0d, 0x6f, 0x8b, 0x2c, 0x7e,
    0x11]⟩

/-! # Properties -/

/-! ## Go maps -/

namespace GoMap

variable {α : Type}

theorem get_set_self (m : GoMap α) (k : String) (v : α) : (m.set k v).get k = some v := by
  induction m with
  | nil => simp [set, get]
  | cons e m ih =>
    obtain ⟨k', v'⟩ := e
    by_cases h : k' = k
    · simp [set, get, h]
    · simp [set, get, h, ih]

theorem get_set_ne (m : GoMap α) (k k' : String) (v : α) (h : k' ≠ k) :
    (m.set k v).get k' = m.get k' := by
  induction m with
  | nil => simp [set, get, Ne.symm h]
  | cons e m ih =>
    obtain ⟨k₀, v₀⟩ := e
    by_cases h₀ : k₀ = k
    · subst h₀
      simp [set, get, Ne.symm h]
    · by_cases h₁ : k₀ = k'
      · subst h₁
        simp [set, get, h₀]
      · simp [set, get, h₀, h₁, ih]

theorem get_eq_none_iff (m : GoMap α) (k : String) : m.get k = none ↔ k ∉ m.keys := by
  induction m with
  | nil => simp [get, keys]
  | cons e m ih =>
    obtain ⟨k', v'⟩ := e
    by_cases h : k' = k
    · simp [get, keys, h]
    · have h' : ¬ k = k' := fun hk => h hk.symm
      simpa [get, keys, h, h'] using ih

theorem set_eq_append (m : GoMap α) (k : String) (v : α) (h : k ∉ m.keys) :
    m.set k v = m ++ [(k, v)] := by
  induction m with
  | nil => simp [set]
  | cons e m ih =>
    obtain ⟨k', v'⟩ := e
    have hk : ¬ k' = k := by
      intro hk
      exact h (by simp [keys, hk])
    have hm : k ∉ keys m := by
      intro hm
      exact h (by simp only [keys, List.map_cons, List.mem_cons]; right; exact hm)
    simp [set, hk, ih hm]

theorem get_of_mem (m : GoMap α) (hwf : m.WF) (k : String) (v : α) (h : (k, v) ∈ m) :
    m.get k = some v := by
  induction m with
  | nil => simp at h
  | cons e m ih =>
    obtain ⟨k', v'⟩ := e
    have hnd : k' ∉ keys m ∧ WF m := by
      simpa [WF, keys] using hwf
    rcases List.mem_cons.1 h with h | h
    · cases h
      simp [get]
    · have hk : k ∈ keys m := by
        simp only [keys, List.mem_map]
        exact ⟨(k, v), h, rfl⟩
      have hne : ¬ k' = k := by
        intro hk'
        exact hnd.1 (hk' ▸ hk)
      simp [get, hne, ih hnd.2 h]

theorem mem_of_get (m : GoMap α) (k : String) (v : α) (h : m.get k = some v) : (k, v) ∈ m := by
  induction m with
  | nil => simp [get] at h
  | cons e m ih =>
    obtain ⟨k', v'⟩ := e
    by_cases hk : k' = k
    · subst hk
      simp [get] at h
      simp [h]
    · simp [get, hk] at h
      exact List.mem_cons_of_mem _ (ih h)

end GoMap

/-! ## The laptop store -/

namespace InMemoryLaptopStore

theorem WF_new : NewInMemoryLaptopStore.WF := by
  simp [WF, NewInMemoryLaptopStore, GoMap.WF, GoMap.keys]

theorem Save_of_not_mem (m : InMemoryLaptopStore) (laptop : Laptop)
    (h : laptop.Id ∉ m.data.keys) :
    m.Save laptop = (none, ⟨m.data ++ [(laptop.Id, laptop)]⟩) := by
  have hg : m.data.get laptop.Id = none := (GoMap.get_eq_none_iff _ _).2 h
  simp [Save, hg, GoMap.set_eq_append _ _ _ h]

theorem Save_of_mem (m : InMemoryLaptopStore) (laptop : Laptop)
    (h : laptop.Id ∈ m.data.keys) :
    m.Save laptop = (some GoError.ErrAlreadyExist, m) := by
  have hg : m.data.get laptop.Id ≠ none := fun hg => (GoMap.get_eq_none_iff _ _).1 hg h
  cases hv : m.data.get laptop.Id with
  | none => exact absurd hv hg
  | some v => simp [Save, hv]

theorem WF_Save (m : InMemoryLaptopStore) (laptop : Laptop) (hwf : m.WF) :
    (m.Save laptop).2.WF := by
  by_cases h : laptop.Id ∈ m.data.keys
  · rw [Save_of_mem m laptop h]
    exact hwf
  · rw [Save_of_not_mem m laptop h]
    refine ⟨?_, ?_⟩
    · have h1 : GoMap.keys (m.data ++ [(laptop.Id, laptop)]) = m.data.keys ++ [laptop.Id] := by
        simp [GoMap.keys]
      show (GoMap.keys (m.data ++ [(laptop.Id, laptop)])).Nodup
      rw [h1]
      exact List.Nodup.append hwf.1 (List.nodup_singleton _) (by simpa using h)
    · intro e he
      rcases List.mem_append.1 he with he | he
      · exact hwf.2 e he
      · simp at he
        subst he
        rfl

theorem searchLoop_live (ctx : Context) (filter : Option Filter)
    (found : Nat → Laptop → Option GoError) (hctx : ∀ k, ctx k = CtxErr.nil)
    (hfound : ∀ k l, found k l = none) (visit : List (String × Laptop)) :
    ∀ polls calls, searchLoop ctx filter found visit polls calls =
      ⟨none, calls ++ (visit.filter (fun e => isQualified filter e.2)).map Prod.snd,
        polls + 2 * visit.length⟩ := by
  induction visit with
  | nil => intro polls calls; simp [searchLoop]
  | cons e rest ih =>
    intro polls calls
    obtain ⟨k, l⟩ := e
    by_cases hq : isQualified filter l = true
    · simp [searchLoop, hctx, hfound, hq, ih, List.length_cons]
      omega
    · simp [searchLoop, hctx, hq, ih, List.length_cons]
      omega

theorem nodup_map_snd (m : InMemoryLaptopStore) (hwf : m.WF) : (m.data.map Prod.snd).Nodup := by
  have hinj : ∀ a ∈ m.data, ∀ b ∈ m.data, a.2 = b.2 → a = b := by
    intro a ha b hb hab
    have h1 := hwf.2 a ha
    have h2 := hwf.2 b hb
    exact Prod.ext (by rw [← h1, ← h2, hab]) hab
  have hnd : m.data.Nodup := List.Nodup.of_map Prod.fst hwf.1
  exact List.Nodup.map_on hinj hnd

end InMemoryLaptopStore

/-! ## Comparison of `float64` values -/

theorem F64.not_lt_iff_le (x y : F64) (hx : x.isNaN = false) (hy : y.isNaN = false) :
    F64.lt y x = false ↔ F64.le x y = true := by
  simp [F64.lt, F64.le, hx, hy]

/-! ## Claims on `laptop_store.go` -/

/-- C1: `Save` is create-once. It returns `ErrAlreadyExist` exactly when the
id of the laptop is a key of the store, and then the store is unchanged;
otherwise it returns no error, the new store maps the id to the laptop, every
other key is looked up as before and the entries are the old ones followed by
the new one. Two saves of laptops with one id on a store lacking it, in either
order: the first succeeds and the second fails with `ErrAlreadyExist`. -/
theorem InMemoryLaptopStore.Save_create_once (m : InMemoryLaptopStore) (laptop : Laptop) :
    ((m.Save laptop).1 = some GoError.ErrAlreadyExist ↔ laptop.Id ∈ m.data.keys) ∧
    ((m.Save laptop).1 = none ↔ laptop.Id ∉ m.data.keys) ∧
    (laptop.Id ∈ m.data.keys → (m.Save laptop).2 = m) ∧
    (laptop.Id ∉ m.data.keys →
      (m.Save laptop).2.data.get laptop.Id = some laptop ∧
      (∀ k, k ≠ laptop.Id → (m.Save laptop).2.data.get k = m.data.get k) ∧
      (m.Save laptop).2.data = m.data ++ [(laptop.Id, laptop)]) ∧
    (∀ other : Laptop, other.Id = laptop.Id → laptop.Id ∉ m.data.keys →
      ((m.Save laptop).1 = none ∧
        ((m.Save laptop).2.Save other).1 = some GoError.ErrAlreadyExist) ∧
      ((m.Save other).1 = none ∧
        ((m.Save other).2.Save laptop).1 = some GoError.ErrAlreadyExist)) := by
  have key : ∀ (a b : Laptop), b.Id = a.Id → a.Id ∉ m.data.keys →
      (m.Save a).1 = none ∧ ((m.Save a).2.Save b).1 = some GoError.ErrAlreadyExist := by
    intro a b hab ha
    rw [InMemoryLaptopStore.Save_of_not_mem m a ha]
    refine ⟨rfl, ?_⟩
    have hb : b.Id ∈ GoMap.keys (m.data ++ [(a.Id, a)]) := by
      simp [GoMap.keys, hab]
    rw [InMemoryLaptopStore.Save_of_mem _ b hb]
  refine ⟨?_, ?_, ?_, ?_, ?_⟩
  · constructor
    · intro h
      by_contra hn
      rw [InMemoryLaptopStore.Save_of_not_mem m laptop hn] at h
      simp at h
    · intro h
      rw [InMemoryLaptopStore.Save_of_mem m laptop h]
  · constructor
    · intro h hn
      rw [InMemoryLaptopStore.Save_of_mem m laptop hn] at h
      simp at h
    · intro h
      rw [InMemoryLaptopStore.Save_of_not_mem m laptop h]
  · intro h
    rw [InMemoryLaptopStore.Save_of_mem m laptop h]
  · intro h
    have hs : (m.Save laptop).2.data = m.data.set laptop.Id laptop := by
      rw [InMemoryLaptopStore.Save_of_not_mem m laptop h, GoMap.set_eq_append _ _ _ h]
    refine ⟨?_, ?_, ?_⟩
    · rw [hs]
      exact GoMap.get_set_self _ _ _
    · intro k hk
      rw [hs]
      exact GoMap.get_set_ne _ _ _ _ hk
    · rw [InMemoryLaptopStore.Save_of_not_mem m laptop h]
  · intro other ho h
    refine ⟨key laptop other ho h, key other laptop ho.symm ?_⟩
    rw [ho]
    exact h

/-- C1, at a concrete input: saving one laptop twice on the empty store. -/
theorem InMemoryLaptopStore.Save_create_once_witness :
    (NewInMemoryLaptopStore.Save nanLaptop).1 = none ∧
    ((NewInMemoryLaptopStore.Save nanLaptop).2.Save nanLaptop).1
      = some GoError.ErrAlreadyExist :=
  ((InMemoryLaptopStore.Save_create_once NewInMemoryLaptopStore nanLaptop).2.2.2.2
    nanLaptop rfl (by decide)).1

/-- C2 as stated fails: on the store holding one laptop of NaN price, a search
with a price limit of 1000.0, a live context and a callback that never fails
invokes the callback on that laptop, whose price is not `<=` the limit. -/
theorem InMemoryLaptopStore.Search_meetsFilter_counterexample :
    nanStore.WF ∧
    (nanStore.Search nanStore.data liveCtx (some priceFilter) neverFails).calls = [nanLaptop] ∧
    meetsFilter (some priceFilter) nanLaptop = false ∧
    F64.le nanLaptop.PriceUsd (Filter.GetMaxPriceUsd (some priceFilter)) = false := by
  refine ⟨InMemoryLaptopStore.WF_Save _ _ InMemoryLaptopStore.WF_new, ?_, ?_, ?_⟩ <;> decide

theorem isQualified_iff (filter : Option Filter) (laptop : Laptop) :
    isQualified filter laptop = true ↔ notRejected filter laptop := by
  unfold isQualified notRejected
  constructor
  · intro h
    split_ifs at h with h1 h2 h3 h4
    exact ⟨by simpa using h1, by omega, by simpa using h3, by omega⟩
  · rintro ⟨h1, h2, h3, h4⟩
    have h2' : ¬ CPU.GetNumberCores laptop.Cpu < Filter.GetMinCpuCores filter := by omega
    have h4' : ¬ toBit laptop.Ram < toBit (Filter.GetMinRam filter) := by omega
    simp [h1, h2', h3, h4']

theorem InMemoryLaptopStore.Find_fst (m : InMemoryLaptopStore) (id : String) :
    (m.Find id).1 = m.data.get id := by
  unfold InMemoryLaptopStore.Find
  cases m.data.get id <;> rfl

theorem InMemoryLaptopStore.mem_qualified (m : InMemoryLaptopStore) (hwf : m.WF)
    (filter : Option Filter) (l : Laptop) :
    l ∈ (m.data.filter (fun e => isQualified filter e.2)).map Prod.snd ↔
      ((m.Find l.Id).1 = some l ∧ notRejected filter l) := by
  rw [InMemoryLaptopStore.Find_fst, ← isQualified_iff]
  simp only [List.mem_map, List.mem_filter]
  constructor
  · rintro ⟨e, ⟨he, hq⟩, rfl⟩
    have hid := hwf.2 e he
    refine ⟨GoMap.get_of_mem _ hwf.1 _ _ ?_, hq⟩
    rw [hid]
    exact he
  · rintro ⟨hg, hq⟩
    exact ⟨(l.Id, l), ⟨GoMap.mem_of_get _ _ _ hg, hq⟩, rfl⟩

/-- C2, amended: on a store built by `Save`, visited in any order, with a
context that is never cancelled and a callback that never fails, `Search`
returns no error and invokes the callback exactly once on each stored laptop
that none of the four tests rejects (price not above the maximum, cores not
below the minimum, clock speed not below the minimum, memory in bits not below
the minimum, both memories through `toBit`) and never on another laptop; when
none of the two prices and two clock speeds compared is NaN, these are the
laptops with price `<=` maximum, cores `>=` minimum, clock speed `>=` minimum
and memory `>=` minimum. -/
theorem InMemoryLaptopStore.Search_calls_notRejected (m : InMemoryLaptopStore)
    (visit : List (String × Laptop)) (ctx : Context) (filter : Option Filter)
    (found : Nat → Laptop → Option GoError)
    (hwf : m.WF) (hvisit : visit.Perm m.data) (hctx : ∀ k, ctx k = CtxErr.nil)
    (hfound : ∀ k l, found k l = none) :
    (m.Search visit ctx filter found).err = none ∧
    (∀ l : Laptop, ((m.Find l.Id).1 = some l ∧ notRejected filter l) →
      (m.Search visit ctx filter found).calls.count l = 1) ∧
    (∀ l : Laptop, ¬ ((m.Find l.Id).1 = some l ∧ notRejected filter l) →
      (m.Search visit ctx filter found).calls.count l = 0) ∧
    (∀ l : Laptop, l.PriceUsd.isNaN = false → (Filter.GetMaxPriceUsd filter).isNaN = false →
      (CPU.GetMinGhz l.Cpu).isNaN = false → (Filter.GetMinCpuGhz filter).isNaN = false →
      (notRejected filter l ↔ meetsFilter filter l = true)) := by
  have hcalls : (m.Search visit ctx filter found).calls =
      (visit.filter (fun e => isQualified filter e.2)).map Prod.snd := by
    simp [InMemoryLaptopStore.Search,
      InMemoryLaptopStore.searchLoop_live ctx filter found hctx hfound]
  have hperm : ((visit.filter (fun e => isQualified filter e.2)).map Prod.snd).Perm
      ((m.data.filter (fun e => isQualified filter e.2)).map Prod.snd) :=
    (hvisit.filter _).map _
  have hnd : ((m.data.filter (fun e => isQualified filter e.2)).map Prod.snd).Nodup :=
    (InMemoryLaptopStore.nodup_map_snd m hwf).sublist
      ((List.filter_sublist m.data).map Prod.snd)
  refine ⟨?_, ?_, ?_, ?_⟩
  · simp [InMemoryLaptopStore.Search,
      InMemoryLaptopStore.searchLoop_live ctx filter found hctx hfound]
  · intro l hl
    rw [hcalls, hperm.count_eq]
    exact List.count_eq_one_of_mem hnd ((InMemoryLaptopStore.mem_qualified m hwf filter l).2 hl)
  · intro l hl
    rw [hcalls, hperm.count_eq]
    exact List.count_eq_zero_of_not_mem
      (fun h => hl ((InMemoryLaptopStore.mem_qualified m hwf filter l).1 h))
  · intro l h1 h2 h3 h4
    unfold notRejected meetsFilter
    rw [F64.gt, F64.ge, F64.not_lt_iff_le _ _ h1 h2, F64.not_lt_iff_le _ _ h4 h3]
    simp [and_assoc]

/-- C2, amended, at a concrete input: the search of the counterexample. -/
theorem InMemoryLaptopStore.Search_calls_notRejected_witness :
    (nanStore.Search nanStore.data liveCtx (some priceFilter) neverFails).err = none ∧
    (nanStore.Search nanStore.data liveCtx (some priceFilter) neverFails).calls.count nanLaptop
      = 1 :=
  have h := InMemoryLaptopStore.Search_calls_notRejected nanStore nanStore.data liveCtx
    (some priceFilter) neverFails
    (InMemoryLaptopStore.WF_Save _ _ InMemoryLaptopStore.WF_new) (List.Perm.refl _)
    (fun _ => rfl) (fun _ _ => rfl)
  ⟨h.1, h.2.1 nanLaptop ⟨by decide, by unfold notRejected; decide⟩⟩

/-- C3 as stated fails: `2^61` bytes are `2^64` bits, and `toBit` returns `0`. -/
theorem toBit_exact_counterexample :
    (2 : Nat) ^ 61 < 2 ^ 64 ∧ unitShift Memory_Unit.BYTE = some 3 ∧
    toBit (some ⟨2 ^ 61, Memory_Unit.BYTE⟩) = 0 ∧
    toBit (some ⟨2 ^ 61, Memory_Unit.BYTE⟩) ≠ 2 ^ 61 * 2 ^ 3 := by
  decide

/-- C3, amended: for every value `v` (a `uint64`: the getter reads it modulo
`2^64`) and each of the six units, with `k` the shift of the unit (0, 3, 13,
23, 33, 43), `toBit` returns `v * 2^k` reduced modulo `2^64`; this is
`v * 2^k` itself whenever `v * 2^k < 2^64`. -/
theorem toBit_shift (v : Nat) (u : Memory_Unit) (k : Nat) (hk : unitShift u = some k) :
    toBit (some ⟨v, u⟩) = (v * 2 ^ k) % 2 ^ 64 ∧
    (v * 2 ^ k < 2 ^ 64 → toBit (some ⟨v, u⟩) = v * 2 ^ k) := by
  have hmain : toBit (some ⟨v, u⟩) = (v * 2 ^ k) % 2 ^ 64 := by
    cases u <;> simp [unitShift] at hk <;> subst hk <;>
      simp [toBit, Memory.GetValue, Memory.GetUnit, Nat.shiftLeft_eq]
  exact ⟨hmain, fun h => by rw [hmain, Nat.mod_eq_of_lt h]⟩

/-- C3, amended, at a concrete input: 8 gigabytes are `8 * 2^33` bits. -/
theorem toBit_shift_witness :
    toBit (some ⟨8, Memory_Unit.GIGABYTE⟩) = (8 * 2 ^ 33) % 2 ^ 64 ∧
    (8 * 2 ^ 33 < 2 ^ 64 → toBit (some ⟨8, Memory_Unit.GIGABYTE⟩) = 8 * 2 ^ 33) :=
  toBit_shift 8 Memory_Unit.GIGABYTE 33 rfl

/-! ## The rating store -/

theorem heapModify_length (f : Rating → Rating) (h : List Rating) (p : Nat) :
    (heapModify f h p).length = h.length := by
  induction h generalizing p with
  | nil => rfl
  | cons r h ih =>
    cases p with
    | zero => rfl
    | succ p => simp [heapModify, ih]

theorem heapModify_getElem? (f : Rating → Rating) (h : List Rating) (p q : Nat) :
    (heapModify f h p)[q]? = if q = p then (h[q]?).map f else h[q]? := by
  induction h generalizing p q with
  | nil => simp [heapModify]
  | cons r h ih =>
    cases p with
    | zero =>
      cases q with
      | zero => simp [heapModify]
      | succ q => simp [heapModify]
    | succ p =>
      cases q with
      | zero => simp [heapModify]
      | succ q => simp [heapModify, ih]

namespace InMemoryRatingStore

theorem WF_new_rating : NewInMemoryRatingStore.WF := by
  constructor
  · intro id p h
    simp [NewInMemoryRatingStore, GoMap.get] at h
  · intro id id' p h
    simp [NewInMemoryRatingStore, GoMap.get] at h

theorem get_set_same_value (m : GoMap Nat) (id : String) (p : Nat) (h : m.get id = some p)
    (id' : String) : (m.set id p).get id' = m.get id' := by
  by_cases hid : id' = id
  · subst hid
    rw [GoMap.get_set_self, h]
  · exact GoMap.get_set_ne _ _ _ _ hid

theorem Add_view_self (m : InMemoryRatingStore) (hwf : m.WF) (id : String) (score : F64) :
    (m.Add id score).store.view id = some (addStep (m.view id) score) ∧
    (m.Add id score).store.deref (m.Add id score).rating
      = some (addStep (m.view id) score) ∧
    (m.Add id score).err = none := by
  cases hg : m.rating.get id with
  | none =>
    simp [Add, hg, view, deref, GoMap.get_set_self, addStep]
  | some p =>
    have hp : p < m.heap.length := hwf.1 id p hg
    simp [Add, hg, view, deref, GoMap.get_set_self, addStep, heapModify_getElem?,
      List.getElem?_eq_getElem hp]

theorem Add_view_ne (m : InMemoryRatingStore) (hwf : m.WF) (id id' : String) (score : F64)
    (hne : id' ≠ id) : (m.Add id score).store.view id' = m.view id' := by
  cases hg : m.rating.get id with
  | none =>
    simp only [Add, hg, view, deref, GoMap.get_set_ne _ _ _ _ hne]
    cases hg' : m.rating.get id' with
    | none => rfl
    | some p' =>
      have hp' : p' < m.heap.length := hwf.1 id' p' hg'
      simp [List.getElem?_append_left hp']
  | some p =>
    simp only [Add, hg, view, deref, GoMap.get_set_ne _ _ _ _ hne]
    cases hg' : m.rating.get id' with
    | none => rfl
    | some p' =>
      have hpp : p' ≠ p := by
        intro h
        subst h
        exact hne (hwf.2 id' id p' hg' hg)
      simp [heapModify_getElem?, hpp]

theorem WF_Add (m : InMemoryRatingStore) (hwf : m.WF) (id : String) (score : F64) :
    (m.Add id score).store.WF := by
  cases hg : m.rating.get id with
  | none =>
    simp only [Add, hg]
    constructor
    · intro id' p' h'
      by_cases hid : id' = id
      · subst hid
        rw [GoMap.get_set_self] at h'
        cases h'
        simp
      · rw [GoMap.get_set_ne _ _ _ _ hid] at h'
        have := hwf.1 id' p' h'
        simp
        omega
    · intro a b q ha hb
      by_cases h1 : a = id
      · by_cases h2 : b = id
        · rw [h1, h2]
        · subst h1
          rw [GoMap.get_set_self] at ha
          rw [GoMap.get_set_ne _ _ _ _ h2] at hb
          cases ha
          exact absurd (hwf.1 b _ hb) (lt_irrefl _)
      · by_cases h2 : b = id
        · subst h2
          rw [GoMap.get_set_self] at hb
          rw [GoMap.get_set_ne _ _ _ _ h1] at ha
          cases hb
          exact absurd (hwf.1 a _ ha) (lt_irrefl _)
        · rw [GoMap.get_set_ne _ _ _ _ h1] at ha
          rw [GoMap.get_set_ne _ _ _ _ h2] at hb
          exact hwf.2 a b q ha hb
  | some p =>
    simp only [Add, hg]
    constructor
    · intro id' p' h'
      rw [get_set_same_value _ _ _ hg] at h'
      rw [heapModify_length]
      exact hwf.1 id' p' h'
    · intro a b q ha hb
      rw [get_set_same_value _ _ _ hg] at ha hb
      exact hwf.2 a b q ha hb

theorem WF_runAdds (calls : List (String × F64)) :
    ∀ m : InMemoryRatingStore, m.WF → (m.runAdds calls).WF := by
  induction calls with
  | nil => intro m h; exact h
  | cons c calls ih =>
    intro m h
    obtain ⟨id, score⟩ := c
    exact ih _ (WF_Add m h id score)

theorem view_runAdds (id : String) (calls : List (String × F64)) :
    ∀ m : InMemoryRatingStore, m.WF →
      (m.runAdds calls).view id
        = (scoresOf id calls).foldl (fun r s => some (addStep r s)) (m.view id) := by
  induction calls with
  | nil => intro m _; rfl
  | cons c calls ih =>
    intro m h
    obtain ⟨id', score⟩ := c
    by_cases hid : id' = id
    · subst hid
      simp [runAdds, scoresOf, ih _ (WF_Add m h id' score), (Add_view_self m h id' score).1]
    · have hne : id ≠ id' := fun h' => hid h'.symm
      simp [runAdds, scoresOf, hid, ih _ (WF_Add m h id' score), Add_view_ne m h id' id score hne]

end InMemoryRatingStore

theorem foldl_addStep_some (scores : List F64) :
    ∀ (c : Nat) (x : F64),
      scores.foldl (fun r s => some (addStep r s)) (some ⟨c % 2 ^ 32, x⟩)
        = some ⟨(c + scores.length) % 2 ^ 32, scores.foldl F64.add x⟩ := by
  induction scores with
  | nil => intro c x; rfl
  | cons s rest ih =>
    intro c x
    have h : (c % 2 ^ 32 + 1) % 2 ^ 32 = (c + 1) % 2 ^ 32 := Nat.mod_add_mod c (2 ^ 32) 1
    have hstep : addStep (some ⟨c % 2 ^ 32, x⟩) s = ⟨(c + 1) % 2 ^ 32, F64.add x s⟩ := by
      simp only [addStep, h]
    rw [List.foldl_cons, hstep, ih (c + 1) (F64.add x s), List.length_cons, List.foldl_cons]
    congr 3
    omega

theorem foldl_addStep_none (s : F64) (rest : List F64) :
    (s :: rest).foldl (fun r s => some (addStep r s)) none
      = some ⟨(rest.length + 1) % 2 ^ 32, sumScores (s :: rest)⟩ := by
  have h := foldl_addStep_some rest 1 s
  have h1 : (1 : Nat) % 2 ^ 32 = 1 := by norm_num
  rw [h1] at h
  have h0 : addStep none s = ⟨1, s⟩ := rfl
  rw [List.foldl_cons, h0, h, Nat.add_comm]
  rfl

theorem scoresOf_append_self (id : String) (calls : List (String × F64)) (score : F64) :
    scoresOf id (calls ++ [(id, score)]) = scoresOf id calls ++ [score] := by
  simp [scoresOf]

theorem scoresOf_replicate (id : String) (score : F64) (n : Nat) :
    scoresOf id (List.replicate n (id, score)) = List.replicate n score := by
  induction n with
  | zero => rfl
  | succ n ih =>
    rw [List.replicate_succ, List.replicate_succ]
    have : scoresOf id ((id, score) :: List.replicate n (id, score))
        = score :: scoresOf id (List.replicate n (id, score)) := by
      simp [scoresOf]
    rw [this, ih]

/-- The object returned by an `Add` that follows any calls on a fresh store:
the count is the number of calls for the id, modulo `2^32`, and the sum is
the left-to-right sum of their scores. -/
theorem InMemoryRatingStore.Add_after_runAdds (calls : List (String × F64)) (id : String)
    (score : F64) :
    ((NewInMemoryRatingStore.runAdds calls).Add id score).err = none ∧
    ((NewInMemoryRatingStore.runAdds calls).Add id score).store.deref
        ((NewInMemoryRatingStore.runAdds calls).Add id score).rating
      = some ⟨(scoresOf id (calls ++ [(id, score)])).length % 2 ^ 32,
          sumScores (scoresOf id (calls ++ [(id, score)]))⟩ := by
  have hwf := InMemoryRatingStore.WF_runAdds calls _ InMemoryRatingStore.WF_new_rating
  have h := InMemoryRatingStore.Add_view_self _ hwf id score
  refine ⟨h.2.2, ?_⟩
  rw [h.2.1, InMemoryRatingStore.view_runAdds id calls _ InMemoryRatingStore.WF_new_rating]
  have hv : NewInMemoryRatingStore.view id = none := rfl
  have happ : some (addStep ((scoresOf id calls).foldl (fun r s => some (addStep r s)) none) score)
      = (scoresOf id calls ++ [score]).foldl (fun r s => some (addStep r s)) none := by
    rw [List.foldl_append]
    rfl
  rw [hv, happ, scoresOf_append_self]
  cases hs : scoresOf id calls with
  | nil => rfl
  | cons a rest =>
    rw [List.cons_append, foldl_addStep_none]
    simp

/-- C4 as stated fails: after `2^32` calls of `Add` with one id on a fresh
store, the last call returns a rating whose `Count`, a `uint32`, is `0`. -/
theorem InMemoryRatingStore.Add_count_counterexample :
    (scoresOf ratedId (List.replicate (2 ^ 32 - 1) (ratedId, four) ++ [(ratedId, four)])).length
      = 2 ^ 32 ∧
    (((NewInMemoryRatingStore.runAdds (List.replicate (2 ^ 32 - 1) (ratedId, four))).Add
        ratedId four).store.deref
      ((NewInMemoryRatingStore.runAdds (List.replicate (2 ^ 32 - 1) (ratedId, four))).Add
        ratedId four).rating).map Rating.Count = some 0 := by
  have hlen : (scoresOf ratedId
      (List.replicate (2 ^ 32 - 1) (ratedId, four) ++ [(ratedId, four)])).length = 2 ^ 32 := by
    rw [scoresOf_append_self, scoresOf_replicate, List.length_append, List.length_replicate]
    rfl
  refine ⟨hlen, ?_⟩
  rw [(InMemoryRatingStore.Add_after_runAdds _ ratedId four).2, hlen]
  rfl

/-- C4, amended: let any calls of `Add` be run on a fresh store and be
followed by `Add(id, score)`, the `N`-th call for `id`, the scores of the
calls for `id` being `s1 .. sN` in call order. The call returns no error and a
rating whose `Count` is `N` modulo `2^32`, hence `N` when `N < 2^32`, and
whose `Sum` is `s1 + ... + sN` added from the left in `float64`; the first
`Add` for an id returns `Count = 1` and `Sum = score`. -/
theorem InMemoryRatingStore.Add_count_sum (calls : List (String × F64)) (id : String)
    (score : F64) :
    ((NewInMemoryRatingStore.runAdds calls).Add id score).err = none ∧
    ((NewInMemoryRatingStore.runAdds calls).Add id score).store.deref
        ((NewInMemoryRatingStore.runAdds calls).Add id score).rating
      = some ⟨(scoresOf id (calls ++ [(id, score)])).length % 2 ^ 32,
          sumScores (scoresOf id (calls ++ [(id, score)]))⟩ ∧
    ((scoresOf id (calls ++ [(id, score)])).length < 2 ^ 32 →
      ((NewInMemoryRatingStore.runAdds calls).Add id score).store.deref
          ((NewInMemoryRatingStore.runAdds calls).Add id score).rating
        = some ⟨(scoresOf id (calls ++ [(id, score)])).length,
            sumScores (scoresOf id (calls ++ [(id, score)]))⟩) ∧
    (scoresOf id calls = [] →
      ((NewInMemoryRatingStore.runAdds calls).Add id score).store.deref
          ((NewInMemoryRatingStore.runAdds calls).Add id score).rating
        = some ⟨1, score⟩) := by
  have h := InMemoryRatingStore.Add_after_runAdds calls id score
  refine ⟨h.1, h.2, ?_, ?_⟩
  · intro hlt
    rw [h.2, Nat.mod_eq_of_lt hlt]
  · intro hnil
    rw [h.2, scoresOf_append_self, hnil]
    rfl

/-- C4, amended, at a concrete input: 4.0 then 5.0 for one id, with a call for
another id in between; the second call for the id returns count 2 and sum 9.0. -/
theorem InMemoryRatingStore.Add_count_sum_witness :
    ((NewInMemoryRatingStore.runAdds [(ratedId, four), ("other", five)]).Add ratedId five
        ).store.deref
      ((NewInMemoryRatingStore.runAdds [(ratedId, four), ("other", five)]).Add ratedId five
        ).rating
      = some ⟨2, ⟨0x4022000000000000⟩⟩ :=
  ((InMemoryRatingStore.Add_count_sum [(ratedId, four), ("other", five)] ratedId five).2.2.1
    (by decide)).trans (by decide)

/-! ## Claims on `CreateLaptop` -/

theorem isHexDigit_hexDigit (n : Nat) : isHexDigit (hexDigit n) = true := by
  have h : ∀ k, k < 16 → isHexDigit (hextable.getD k '0') = true := by decide
  exact h (n % 16) (Nat.mod_lt n (by decide))

theorem hexDigit_ascii (n : Nat) : (hexDigit n).toNat < 128 := by
  have h : ∀ k, k < 16 → (hextable.getD k '0').toNat < 128 := by decide
  exact h (n % 16) (Nat.mod_lt n (by decide))

/-- The string of a UUID is not empty. -/
theorem UUID.String_ne_empty (u : UUID) : u.String ≠ "" := by
  intro h
  have := congrArg String.length h
  simp [UUID.String, hexEncode, String.length] at this

/-- The string of a UUID parses as a UUID. -/
theorem UUID.uuidParse_String (u : UUID) : uuidParse u.String = true := by
  unfold uuidParse
  have hlen : u.String.data.length = 36 := by simp [UUID.String, hexEncode]
  have hascii : u.String.data.all (fun c => decide (c.toNat < 128)) = true := by
    simp [UUID.String, hexEncode, hexDigit_ascii]
  simp only [hascii, hlen, if_true]
  unfold isCanonicalUUID
  rw [List.all_eq_true]
  intro i hi
  have hi' : i < 36 := List.mem_range.1 hi
  interval_cases i <;> simp [UUID.String, hexEncode, isHexDigit_hexDigit]

/-- C5 as stated fails: a request with an empty id and a live context ends
with code Internal when `uuid.NewRandom` returns an error, and with code
AlreadyExists when the UUID drawn, whose string parses as a UUID, is already a
key of the store. -/
theorem CreateLaptop_empty_id_counterexample :
    (CreateLaptop InMemoryLaptopStore.asLaptopStore uuidParse none liveCtx
        NewInMemoryLaptopStore ⟨some noIdLaptop⟩).err = some Code.Internal ∧
    (CreateLaptop InMemoryLaptopStore.asLaptopStore uuidParse none liveCtx
        NewInMemoryLaptopStore ⟨some noIdLaptop⟩).res = none ∧
    ratedUUID.String = ratedId ∧
    uuidParse ratedUUID.String = true ∧
    (CreateLaptop InMemoryLaptopStore.asLaptopStore uuidParse (some ratedUUID.String) liveCtx
        sampleStore ⟨some noIdLaptop⟩).err = some Code.AlreadyExists ∧
    (CreateLaptop InMemoryLaptopStore.asLaptopStore uuidParse (some ratedUUID.String) liveCtx
        sampleStore ⟨some noIdLaptop⟩).res = none := by
  decide

/-- C5, amended: with a live context and the in-memory store, `generated` being
what `uuid.NewRandom` returns (`none` for an error). A request whose laptop id
is non-empty, parses as a UUID and is not a key of the store succeeds, returns
that id and leaves the laptop in the store under it. A request whose laptop id
is empty succeeds provided `uuid.NewRandom` returns a UUID whose string is not
a key of the store: it returns that string, which is not empty and parses as a
UUID, and the laptop, carrying that id, is in the store under it. -/
theorem CreateLaptop_success (generated : Option UUID) (ctx : Context)
    (m : InMemoryLaptopStore) (req : CreateLaptopRequest) (laptop : Laptop)
    (hreq : req.Laptop = some laptop) (hctx : ctx 0 = CtxErr.nil) :
    (laptop.Id ≠ "" → uuidParse laptop.Id = true → laptop.Id ∉ m.data.keys →
      (CreateLaptop InMemoryLaptopStore.asLaptopStore uuidParse (generated.map UUID.String) ctx
        m req).err = none ∧
      (CreateLaptop InMemoryLaptopStore.asLaptopStore uuidParse (generated.map UUID.String) ctx
        m req).res = some ⟨laptop.Id⟩ ∧
      (CreateLaptop InMemoryLaptopStore.asLaptopStore uuidParse (generated.map UUID.String) ctx
        m req).panicked = false ∧
      ((CreateLaptop InMemoryLaptopStore.asLaptopStore uuidParse (generated.map UUID.String) ctx
        m req).store.Find laptop.Id).1 = some laptop) ∧
    (laptop.Id = "" → ∀ u : UUID, generated = some u → u.String ∉ m.data.keys →
      (CreateLaptop InMemoryLaptopStore.asLaptopStore uuidParse (generated.map UUID.String) ctx
        m req).err = none ∧
      (CreateLaptop InMemoryLaptopStore.asLaptopStore uuidParse (generated.map UUID.String) ctx
        m req).res = some ⟨u.String⟩ ∧
      (CreateLaptop InMemoryLaptopStore.asLaptopStore uuidParse (generated.map UUID.String) ctx
        m req).panicked = false ∧
      ((CreateLaptop InMemoryLaptopStore.asLaptopStore uuidParse (generated.map UUID.String) ctx
        m req).store.Find u.String).1 = some { laptop with Id := u.String } ∧
      u.String ≠ "" ∧
      uuidParse u.String = true) := by
  constructor
  · intro hne hparse hfresh
    have hs := InMemoryLaptopStore.Save_of_not_mem m laptop hfresh
    simp [CreateLaptop, hreq, hne, hparse, hctx, contextErr,
      InMemoryLaptopStore.asLaptopStore, hs, InMemoryLaptopStore.Find_fst]
    have := GoMap.get_set_self m.data laptop.Id laptop
    rwa [GoMap.set_eq_append _ _ _ hfresh] at this
  · intro hempty u hu hfresh
    have hfresh' : ({ laptop with Id := u.String } : Laptop).Id ∉ m.data.keys := hfresh
    have hs := InMemoryLaptopStore.Save_of_not_mem m { laptop with Id := u.String } hfresh'
    refine ⟨?_, ?_, ?_, ?_, UUID.String_ne_empty u, UUID.uuidParse_String u⟩
    · simp [CreateLaptop, hreq, hempty, hu, hctx, contextErr,
        InMemoryLaptopStore.asLaptopStore, hs]
    · simp [CreateLaptop, hreq, hempty, hu, hctx, contextErr,
        InMemoryLaptopStore.asLaptopStore, hs]
    · simp [CreateLaptop, hreq, hempty, hu, hctx, contextErr,
        InMemoryLaptopStore.asLaptopStore, hs]
    · simp [CreateLaptop, hreq, hempty, hu, hctx, contextErr,
        InMemoryLaptopStore.asLaptopStore, hs, InMemoryLaptopStore.Find_fst]
      have := GoMap.get_set_self m.data u.String { laptop with Id := u.String }
      rwa [GoMap.set_eq_append _ _ _ hfresh] at this

/-- C5, amended, at concrete inputs: a laptop with a valid id, and a laptop
without id for which a UUID is drawn, each on the empty store. -/
theorem CreateLaptop_success_witness :
    (CreateLaptop InMemoryLaptopStore.asLaptopStore uuidParse none liveCtx
        NewInMemoryLaptopStore ⟨some sampleLaptop⟩).res = some ⟨ratedId⟩ ∧
    (CreateLaptop InMemoryLaptopStore.asLaptopStore uuidParse (some ratedUUID.String) liveCtx
        NewInMemoryLaptopStore ⟨some noIdLaptop⟩).res = some ⟨ratedUUID.String⟩ ∧
    uuidParse ratedUUID.String = true :=
  have h := (CreateLaptop_success (some ratedUUID) liveCtx NewInMemoryLaptopStore
    ⟨some noIdLaptop⟩ noIdLaptop rfl rfl).2 rfl ratedUUID rfl (by decide)
  ⟨((CreateLaptop_success none liveCtx NewInMemoryLaptopStore ⟨some sampleLaptop⟩
      sampleLaptop rfl rfl).1 (by decide) (by decide) (by decide)).2.1,
    h.2.1, h.2.2.2.2.2⟩

/-- C6: whatever the store, a request whose laptop id is non-empty and does not
parse as a UUID gets no response and the code InvalidArgument; `Save` is not
called and the store is the one before the call. -/
theorem CreateLaptop_invalid_id {σ : Type} (S : LaptopStore σ) (parse : String → Bool)
    (newRandom : Option String) (ctx : Context) (st : σ) (req : CreateLaptopRequest)
    (laptop : Laptop) (hreq : req.Laptop = some laptop) (hne : laptop.Id ≠ "")
    (hparse : parse laptop.Id = false) :
    (CreateLaptop S parse newRandom ctx st req).res = none ∧
    (CreateLaptop S parse newRandom ctx st req).err = some Code.InvalidArgument ∧
    (CreateLaptop S parse newRandom ctx st req).saves = [] ∧
    (CreateLaptop S parse newRandom ctx st req).store = st := by
  simp [CreateLaptop, hreq, hne, hparse]

/-- C6, at a concrete input: the id `invalid-uuid` of the test. -/
theorem CreateLaptop_invalid_id_witness :
    (CreateLaptop InMemoryLaptopStore.asLaptopStore uuidParse none liveCtx
        NewInMemoryLaptopStore ⟨some invalidIdLaptop⟩).err = some Code.InvalidArgument :=
  (CreateLaptop_invalid_id InMemoryLaptopStore.asLaptopStore uuidParse none liveCtx
    NewInMemoryLaptopStore ⟨some invalidIdLaptop⟩ invalidIdLaptop rfl (by decide)
    (by decide)).2.1

/-- C7: with a live context and the in-memory store, a request whose laptop id
parses as a UUID and is a key of the store gets no response and the code
AlreadyExists, and the store is unchanged. Whatever the store, when the call
of `Save` made by the handler returns an error, no response is returned and
the code is AlreadyExists if `errors.Is(err, ErrAlreadyExist)` holds and
Internal if it does not. -/
theorem CreateLaptop_save_error {σ : Type} (S : LaptopStore σ) (parse : String → Bool)
    (newRandom : Option String) (ctx : Context) (st : σ) (m : InMemoryLaptopStore)
    (req : CreateLaptopRequest) :
    (∀ laptop, req.Laptop = some laptop → ctx 0 = CtxErr.nil → laptop.Id ≠ "" →
      parse laptop.Id = true → laptop.Id ∈ m.data.keys →
      (CreateLaptop InMemoryLaptopStore.asLaptopStore parse newRandom ctx m req).res = none ∧
      (CreateLaptop InMemoryLaptopStore.asLaptopStore parse newRandom ctx m req).err
        = some Code.AlreadyExists ∧
      (CreateLaptop InMemoryLaptopStore.asLaptopStore parse newRandom ctx m req).store = m) ∧
    (∀ saved err, (CreateLaptop S parse newRandom ctx st req).saves = [saved] →
      (S.Save st saved).1 = some err →
      (CreateLaptop S parse newRandom ctx st req).res = none ∧
      (err.isErrAlreadyExist = false →
        (CreateLaptop S parse newRandom ctx st req).err = some Code.Internal) ∧
      (err.isErrAlreadyExist = true →
        (CreateLaptop S parse newRandom ctx st req).err = some Code.AlreadyExists)) := by
  constructor
  · intro laptop hreq hctx hne hparse hmem
    have hs := InMemoryLaptopStore.Save_of_mem m laptop hmem
    simp [CreateLaptop, hreq, hne, hparse, hctx, contextErr,
      InMemoryLaptopStore.asLaptopStore, hs, GoError.isErrAlreadyExist]
  · intro saved err hsaves hsave
    unfold CreateLaptop at hsaves ⊢
    cases hl : req.Laptop with
    | none => simp [hl] at hsaves
    | some laptop =>
      simp only [hl] at hsaves ⊢
      split at hsaves
      · simp at hsaves
      · rename_i withId heq
        split at hsaves
        · simp at hsaves
        · split at hsaves
          · rename_i e st' hS
            simp only [List.cons.injEq, and_true] at hsaves
            subst hsaves
            rw [hS] at hsave
            simp only [Option.some.injEq] at hsave
            subst hsave
            simp_all
          · rename_i st' hS
            simp only [List.cons.injEq, and_true] at hsaves
            subst hsaves
            rw [hS] at hsave
            simp at hsave

/-- C7, at concrete inputs: a store whose `Save` fails with an error of its
own, and the in-memory store already holding the laptop. -/
theorem CreateLaptop_save_error_witness :
    (CreateLaptop brokenStore uuidParse none liveCtx () ⟨some sampleLaptop⟩).err
      = some Code.Internal ∧
    (CreateLaptop InMemoryLaptopStore.asLaptopStore uuidParse none liveCtx sampleStore
      ⟨some sampleLaptop⟩).err = some Code.AlreadyExists :=
  ⟨((CreateLaptop_save_error brokenStore uuidParse none liveCtx () sampleStore
      ⟨some sampleLaptop⟩).2 sampleLaptop (GoError.other "disk full") (by decide) rfl).2.1 rfl,
    ((CreateLaptop_save_error brokenStore uuidParse none liveCtx () sampleStore
      ⟨some sampleLaptop⟩).1 sampleLaptop rfl rfl (by decide) (by decide) (by decide)).2.1⟩

/-! ## Claims on `UploadImage` -/

theorem uploadFinish_imageSize {σ : Type} (I : ImageStore σ) (sendOk : Bool)
    (laptopId imageType : String) (imageData : Bytes) (imageSize : Nat) (is : σ) :
    (uploadFinish I sendOk laptopId imageType imageData imageSize is).imageSize = imageSize := by
  unfold uploadFinish
  simp only
  split
  · rfl
  · split <;> rfl

theorem uploadLoop_nil_imageSize {σ : Type} (I : ImageStore σ) (ctx : Context)
    (failed sendOk : Bool) (laptopId imageType : String) (is : σ) (polls : Nat)
    (imageData : Bytes) (imageSize : Nat) :
    (uploadLoop I ctx failed sendOk laptopId imageType is [] polls imageData imageSize).imageSize
      = imageSize := by
  unfold uploadLoop
  cases contextErr (ctx polls) with
  | some code => rfl
  | none =>
    cases failed with
    | true => rfl
    | false => exact uploadFinish_imageSize I sendOk laptopId imageType imageData imageSize is

theorem uploadLoop_imageSize {σ : Type} (I : ImageStore σ) (ctx : Context) (failed sendOk : Bool)
    (laptopId imageType : String) (is : σ) (rest : List UploadImageRequest) :
    ∀ polls imageData imageSize, imageSize ≤ maxImageSize →
      maxImageSize <
        (uploadLoop I ctx failed sendOk laptopId imageType is rest polls imageData imageSize
          ).imageSize →
      (uploadLoop I ctx failed sendOk laptopId imageType is rest polls imageData imageSize).err
        = some Code.InvalidArgument ∧
      (uploadLoop I ctx failed sendOk laptopId imageType is rest polls imageData imageSize).saves
        = [] ∧
      (uploadLoop I ctx failed sendOk laptopId imageType is rest polls imageData imageSize).sent
        = [] ∧
      (uploadLoop I ctx failed sendOk laptopId imageType is rest polls imageData imageSize
        ).imageStore = is := by
  induction rest with
  | nil =>
    intro polls imageData imageSize hle hgt
    rw [uploadLoop_nil_imageSize] at hgt
    omega
  | cons req rest ih =>
    intro polls imageData imageSize hle hgt
    unfold uploadLoop at hgt ⊢
    cases hc : contextErr (ctx polls) with
    | some code =>
      rw [hc] at hgt
      exact absurd hgt (by simpa using hle)
    | none =>
      rw [hc] at hgt
      simp only at hgt ⊢
      by_cases hsz : imageSize + req.GetChunkData.length > maxImageSize
      · rw [if_pos hsz]
        exact ⟨rfl, rfl, rfl, rfl⟩
      · rw [if_neg hsz] at hgt ⊢
        exact ih _ _ _ (by omega) hgt

theorem uploadLoop_too_large {σ : Type} (I : ImageStore σ) (ctx : Context) (failed sendOk : Bool)
    (laptopId imageType : String) (is : σ) (hctx : ∀ k, ctx k = CtxErr.nil)
    (rest : List UploadImageRequest) :
    ∀ polls imageData imageSize, maxImageSize < imageSize + chunkTotal rest →
      imageSize ≤ maxImageSize →
      maxImageSize <
        (uploadLoop I ctx failed sendOk laptopId imageType is rest polls imageData imageSize
          ).imageSize := by
  induction rest with
  | nil =>
    intro polls imageData imageSize hgt hle
    simp [chunkTotal] at hgt
    omega
  | cons req rest ih =>
    intro polls imageData imageSize hgt hle
    have hsum : chunkTotal (req :: rest) = req.GetChunkData.length + chunkTotal rest := by
      simp [chunkTotal]
    unfold uploadLoop
    simp only [hctx, contextErr]
    split
    · rename_i h
      exact h
    · rename_i h
      exact ih _ _ _ (by omega) (by omega)

/-- C8: in every run of `UploadImage`, once the cumulative length of the
chunks received exceeds 1,048,576 the handler returns the code
InvalidArgument, has not called `ImageStore.Save`, has sent no response and
leaves the image store as it was. This is what happens, with a context that
is never cancelled, on every stream whose first message names a laptop that
`Find` returns and whose later messages carry more than 1,048,576 bytes. -/
theorem UploadImage_too_large {σL σI : Type} (L : LaptopStore σL) (I : ImageStore σI) (ls : σL)
    (is : σI) (ctx : Context) (inbound : Inbound UploadImageRequest) (sendOk : Bool) :
    (maxImageSize < (UploadImage L I ls is ctx inbound sendOk).imageSize →
      (UploadImage L I ls is ctx inbound sendOk).err = some Code.InvalidArgument ∧
      (UploadImage L I ls is ctx inbound sendOk).saves = [] ∧
      (UploadImage L I ls is ctx inbound sendOk).sent = [] ∧
      (UploadImage L I ls is ctx inbound sendOk).imageStore = is) ∧
    (∀ laptopId imageType rest laptop,
      inbound.msgs = UploadImageRequest.Info laptopId imageType :: rest →
      L.Find ls laptopId = (some laptop, none) → (∀ k, ctx k = CtxErr.nil) →
      1048576 < chunkTotal rest →
      (UploadImage L I ls is ctx inbound sendOk).err = some Code.InvalidArgument ∧
      (UploadImage L I ls is ctx inbound sendOk).saves = [] ∧
      (UploadImage L I ls is ctx inbound sendOk).sent = [] ∧
      (UploadImage L I ls is ctx inbound sendOk).imageStore = is) := by
  have hmax : maxImageSize = 1048576 := by decide
  have hA : maxImageSize < (UploadImage L I ls is ctx inbound sendOk).imageSize →
      (UploadImage L I ls is ctx inbound sendOk).err = some Code.InvalidArgument ∧
      (UploadImage L I ls is ctx inbound sendOk).saves = [] ∧
      (UploadImage L I ls is ctx inbound sendOk).sent = [] ∧
      (UploadImage L I ls is ctx inbound sendOk).imageStore = is := by
    intro hgt
    unfold UploadImage at hgt ⊢
    cases hm : inbound.msgs with
    | nil =>
      rw [hm] at hgt
      simp [hmax] at hgt
    | cons req rest =>
      rw [hm] at hgt
      cases req with
      | Info laptopId imageType =>
        simp only at hgt ⊢
        rcases hf : L.Find ls laptopId with ⟨_ | laptop, _ | e⟩
        · rw [hf] at hgt
          simp [hmax] at hgt
        · rw [hf] at hgt
          simp [hmax] at hgt
        · rw [hf] at hgt
          simp only at hgt ⊢
          exact uploadLoop_imageSize I ctx inbound.failed sendOk laptopId imageType is rest 0 []
            0 (Nat.zero_le _) hgt
        · rw [hf] at hgt
          simp [hmax] at hgt
      | ChunkData data => simp [hmax] at hgt
      | Empty => simp [hmax] at hgt
  refine ⟨hA, ?_⟩
  intro laptopId imageType rest laptop hmsgs hfind hctx htotal
  apply hA
  have hloop := uploadLoop_too_large I ctx inbound.failed sendOk laptopId imageType is hctx rest
    0 [] 0 (by rw [hmax]; omega) (Nat.zero_le _)
  simpa [UploadImage, hmsgs, hfind] using hloop

theorem zeroChunk_length (n : Nat) : (zeroChunk n).length = n :=
  List.length_replicate n 0

theorem chunkTotal_singleton (data : Bytes) :
    chunkTotal [UploadImageRequest.ChunkData data] = data.length := by
  simp [chunkTotal, UploadImageRequest.GetChunkData]

/-- C8, at a concrete input: one chunk of 1,048,577 bytes for a stored laptop. -/
theorem UploadImage_too_large_witness :
    (UploadImage InMemoryLaptopStore.asLaptopStore listImageStore sampleStore [] liveCtx
      ⟨[UploadImageRequest.Info ratedId "jpg", UploadImageRequest.ChunkData (zeroChunk 1048577)],
        false⟩ true).err = some Code.InvalidArgument ∧
    (UploadImage InMemoryLaptopStore.asLaptopStore listImageStore sampleStore [] liveCtx
      ⟨[UploadImageRequest.Info ratedId "jpg", UploadImageRequest.ChunkData (zeroChunk 1048577)],
        false⟩ true).saves = [] :=
  have h := (UploadImage_too_large InMemoryLaptopStore.asLaptopStore listImageStore sampleStore
    [] liveCtx
    ⟨[UploadImageRequest.Info ratedId "jpg", UploadImageRequest.ChunkData (zeroChunk 1048577)],
      false⟩ true).2 ratedId "jpg" [UploadImageRequest.ChunkData (zeroChunk 1048577)]
    sampleLaptop rfl (by decide) (fun _ => rfl)
    (by rw [chunkTotal_singleton, zeroChunk_length]; exact Nat.lt_succ_self _)
  ⟨h.1, h.2.1⟩

theorem uploadLoop_chunks {σ : Type} (I : ImageStore σ) (ctx : Context) (sendOk : Bool)
    (laptopId imageType : String) (is : σ) (hctx : ∀ k, ctx k = CtxErr.nil)
    (chunks : List Bytes) :
    ∀ polls imageData imageSize, imageSize + chunks.flatten.length ≤ maxImageSize →
      uploadLoop I ctx false sendOk laptopId imageType is
          (chunks.map UploadImageRequest.ChunkData) polls imageData imageSize
        = uploadFinish I sendOk laptopId imageType (imageData ++ chunks.flatten)
            (imageSize + chunks.flatten.length) is := by
  induction chunks with
  | nil =>
    intro polls imageData imageSize _
    simp [uploadLoop, hctx, contextErr]
  | cons c chunks ih =>
    intro polls imageData imageSize hle
    have hlen : (c :: chunks).flatten.length = c.length + chunks.flatten.length := by simp
    rw [hlen] at hle
    have hnot : ¬ imageSize + c.length > maxImageSize := by omega
    simp only [List.map_cons, uploadLoop, hctx, contextErr, UploadImageRequest.GetChunkData,
      if_neg hnot]
    rw [ih _ _ _ (by omega)]
    simp [Nat.add_assoc]

/-- C9: let the first message name a laptop that `Find` returns and the later
messages be the chunks `c1 .. cn`, of total length at most 1,048,576, followed
by the end of the stream; let the context never be cancelled, `SendAndClose`
succeed and `ImageStore.Save` return no error. Then the handler returns no
error, calls `Save` once, with the laptop id, the image type and the bytes
`c1 ++ ... ++ cn`, and sends one response, carrying the id `Save` returned and
the total length of the chunks as size. -/
theorem UploadImage_success {σL σI : Type} (L : LaptopStore σL) (I : ImageStore σI) (ls : σL)
    (is : σI) (ctx : Context) (inbound : Inbound UploadImageRequest) (sendOk : Bool)
    (laptopId imageType : String) (chunks : List Bytes) (laptop : Laptop)
    (hmsgs : inbound.msgs
      = UploadImageRequest.Info laptopId imageType :: chunks.map UploadImageRequest.ChunkData)
    (hfailed : inbound.failed = false) (hfind : L.Find ls laptopId = (some laptop, none))
    (hctx : ∀ k, ctx k = CtxErr.nil) (hsend : sendOk = true)
    (hsave : (I.Save is laptopId imageType chunks.flatten).err = none)
    (hsize : chunks.flatten.length ≤ 1048576) :
    (UploadImage L I ls is ctx inbound sendOk).err = none ∧
    (UploadImage L I ls is ctx inbound sendOk).panicked = false ∧
    (UploadImage L I ls is ctx inbound sendOk).saves = [(laptopId, imageType, chunks.flatten)] ∧
    (UploadImage L I ls is ctx inbound sendOk).sent
      = [⟨(I.Save is laptopId imageType chunks.flatten).id, chunks.flatten.length⟩] ∧
    (UploadImage L I ls is ctx inbound sendOk).imageStore
      = (I.Save is laptopId imageType chunks.flatten).store := by
  have hmax : maxImageSize = 1048576 := by decide
  subst hsend
  have hloop := uploadLoop_chunks I ctx true laptopId imageType is hctx chunks 0 [] 0
    (by rw [hmax]; omega)
  have hmod : chunks.flatten.length % 2 ^ 32 = chunks.flatten.length :=
    Nat.mod_eq_of_lt (by omega)
  simp only [UploadImage, hmsgs, hfind, hfailed, hloop, List.nil_append, Nat.zero_add,
    uploadFinish, hsave, if_true, hmod]
  simp

/-- C9, at a concrete input: two chunks of three and two bytes. -/
theorem UploadImage_success_witness :
    (UploadImage InMemoryLaptopStore.asLaptopStore listImageStore sampleStore [] liveCtx
      ⟨[UploadImageRequest.Info ratedId "jpg", UploadImageRequest.ChunkData [1, 2, 3],
        UploadImageRequest.ChunkData [4, 5]], false⟩ true).saves
      = [(ratedId, "jpg", [1, 2, 3, 4, 5])] ∧
    (UploadImage InMemoryLaptopStore.asLaptopStore listImageStore sampleStore [] liveCtx
      ⟨[UploadImageRequest.Info ratedId "jpg", UploadImageRequest.ChunkData [1, 2, 3],
        UploadImageRequest.ChunkData [4, 5]], false⟩ true).sent = [⟨"image-1", 5⟩] :=
  have h := UploadImage_success InMemoryLaptopStore.asLaptopStore listImageStore sampleStore []
    liveCtx
    ⟨[UploadImageRequest.Info ratedId "jpg", UploadImageRequest.ChunkData [1, 2, 3],
      UploadImageRequest.ChunkData [4, 5]], false⟩ true ratedId "jpg" [[1, 2, 3], [4, 5]]
    sampleLaptop rfl rfl (by decide) (fun _ => rfl) rfl rfl (by decide)
  ⟨h.2.2.1, h.2.2.2.1⟩

/-! ## Claims on `RateLaptop` -/

theorem InMemoryRatingStore.runAdds_append (a b : List (String × F64)) :
    ∀ m : InMemoryRatingStore, m.runAdds (a ++ b) = (m.runAdds a).runAdds b := by
  induction a with
  | nil => intro m; rfl
  | cons c a ih =>
    intro m
    obtain ⟨id, score⟩ := c
    simp [InMemoryRatingStore.runAdds, ih]

theorem scoresOf_map_self (id : String) (scores : List F64) :
    scoresOf id (scores.map fun s => (id, s)) = scores := by
  induction scores with
  | nil => rfl
  | cons s rest ih =>
    have : scoresOf id ((id, s) :: rest.map fun s => (id, s))
        = s :: scoresOf id (rest.map fun s => (id, s)) := by
      simp [scoresOf]
    rw [List.map_cons, this, ih]

theorem rateLoop_same_id {σL : Type} (L : LaptopStore σL) (ls : σL) (ctx : Context)
    (sendOk : Nat → Bool) (id : String) (laptop : Laptop)
    (hfind : L.Find ls id = (some laptop, none)) (hctx : ∀ k, ctx k = CtxErr.nil)
    (hsend : ∀ k, sendOk k = true) (scores : List F64) :
    ∀ prev polls adds sent,
      rateLoop L InMemoryRatingStore.asRateStore ls ctx false sendOk
          (scores.map fun s => ⟨id, s⟩) polls adds sent
          (NewInMemoryRatingStore.runAdds (prev.map fun s => (id, s)))
        = ⟨none, false, adds ++ scores.map (fun s => (id, s)),
            sent ++ responsesFrom id prev scores,
            NewInMemoryRatingStore.runAdds ((prev ++ scores).map fun s => (id, s))⟩ := by
  induction scores with
  | nil =>
    intro prev polls adds sent
    simp [rateLoop, hctx, contextErr, responsesFrom]
  | cons s rest ih =>
    intro prev polls adds sent
    have hadd := InMemoryRatingStore.Add_after_runAdds (prev.map fun s => (id, s)) id s
    have hsc : scoresOf id ((prev.map fun s => (id, s)) ++ [(id, s)]) = prev ++ [s] := by
      rw [scoresOf_append_self, scoresOf_map_self]
    rw [hsc] at hadd
    have hstore : ((NewInMemoryRatingStore.runAdds (prev.map fun s => (id, s))).Add id s).store
        = NewInMemoryRatingStore.runAdds ((prev ++ [s]).map fun s => (id, s)) := by
      rw [List.map_append, InMemoryRatingStore.runAdds_append]
      rfl
    have hih := ih (prev ++ [s]) (polls + 1) (adds ++ [(id, s)])
      (sent ++ [⟨id, (prev.length + 1) % 2 ^ 32,
        F64.div (sumScores (prev ++ [s])) (F64.ofUInt32 ((prev.length + 1) % 2 ^ 32))⟩])
    have hderef : (NewInMemoryRatingStore.runAdds ((prev ++ [s]).map fun s => (id, s))).deref
        ((NewInMemoryRatingStore.runAdds (prev.map fun s => (id, s))).Add id s).rating
        = some ⟨(prev.length + 1) % 2 ^ 32, sumScores (prev ++ [s])⟩ := by
      rw [← hstore, hadd.2, List.length_append, List.length_singleton]
    simp only [List.map_cons, rateLoop, hctx, contextErr, hfind,
      InMemoryRatingStore.asRateStore, hadd.1, hstore, Option.some_bind, hderef, hsend, if_true]
    refine Eq.trans hih ?_
    simp [responsesFrom]

theorem responsesFrom_eq_map (id : String) (scores : List F64) :
    ∀ prev, responsesFrom id prev scores
      = (List.range scores.length).map fun k =>
          (⟨id, (prev.length + k + 1) % 2 ^ 32,
            F64.div (sumScores (prev ++ scores.take (k + 1)))
              (F64.ofUInt32 ((prev.length + k + 1) % 2 ^ 32))⟩ : RateLaptopResponse) := by
  induction scores with
  | nil => intro prev; rfl
  | cons s rest ih =>
    intro prev
    rw [responsesFrom, ih, List.length_cons, List.range_succ_eq_map, List.map_cons, List.map_map]
    congr 1
    apply List.map_congr_left
    intro k _
    simp only [Function.comp, List.length_append, List.length_singleton, List.take_succ_cons,
      List.append_assoc, List.singleton_append]
    have h : prev.length + 1 + k + 1 = prev.length + (k + 1) + 1 := by omega
    rw [h]

/-- The run of `RateLaptop` on requests that all rate one laptop found in the
store, on a fresh rating store, without cancellation or transport error. -/
theorem RateLaptop_same_id {σL : Type} (L : LaptopStore σL) (ls : σL) (ctx : Context)
    (sendOk : Nat → Bool) (id : String) (laptop : Laptop) (scores : List F64)
    (hfind : L.Find ls id = (some laptop, none)) (hctx : ∀ k, ctx k = CtxErr.nil)
    (hsend : ∀ k, sendOk k = true) :
    RateLaptop L InMemoryRatingStore.asRateStore ls NewInMemoryRatingStore ctx
        ⟨scores.map fun s => ⟨id, s⟩, false⟩ sendOk
      = ⟨none, false, scores.map (fun s => (id, s)),
          (List.range scores.length).map (kthResponse id scores),
          NewInMemoryRatingStore.runAdds (scores.map fun s => (id, s))⟩ := by
  have h := rateLoop_same_id L ls ctx sendOk id laptop hfind hctx hsend scores [] 0 [] []
  simp only [List.map_nil, InMemoryRatingStore.runAdds, List.nil_append] at h
  unfold RateLaptop
  rw [h, responsesFrom_eq_map]
  simp [kthResponse]

/-- C10 as stated fails: on a stream of `2^32` requests rating one stored
laptop, the last response carries the rated count `0`, not `2^32`. -/
theorem RateLaptop_count_counterexample :
    ((List.replicate (2 ^ 32) four).map fun s => (⟨ratedId, s⟩ : RateLaptopRequest)).length
      = 2 ^ 32 ∧
    ((RateLaptop InMemoryLaptopStore.asLaptopStore InMemoryRatingStore.asRateStore sampleStore
        NewInMemoryRatingStore liveCtx
        ⟨(List.replicate (2 ^ 32) four).map fun s => ⟨ratedId, s⟩, false⟩
        (fun _ => true)).sent[2 ^ 32 - 1]?).map RateLaptopResponse.RatedCount = some 0 := by
  constructor
  · rw [List.length_map, List.length_replicate]
  · have hfind : InMemoryLaptopStore.asLaptopStore.Find sampleStore ratedId
        = (some sampleLaptop, none) := by decide
    rw [RateLaptop_same_id InMemoryLaptopStore.asLaptopStore sampleStore liveCtx (fun _ => true)
      ratedId sampleLaptop (List.replicate (2 ^ 32) four) hfind (fun _ => rfl) (fun _ => rfl)]
    have hlt : 2 ^ 32 - 1 < (List.replicate (2 ^ 32) four).length := by
      rw [List.length_replicate]
      exact Nat.sub_lt (Nat.pos_pow_of_pos 32 (by decide)) (by decide)
    dsimp only
    rw [List.getElem?_map, List.getElem?_range hlt]
    rfl

/-- C10, amended: let every request of a stream rate the same laptop, which
`Find` returns, with the scores `s1 .. sn`; let the rating store be fresh, the
context never be cancelled, the stream end without transport error and every
`Send` succeed. Then the handler returns no error after sending one response
per request, in order, and nothing else: response `k` carries the laptop id,
the rated count `k` modulo `2^32` and the average `(s1 + ... + sk)` divided by
that count in `float64`. For fewer than `2^32` requests the rated count is `k`
and the average `(s1 + ... + sk) / k`. -/
theorem RateLaptop_responses {σL : Type} (L : LaptopStore σL) (ls : σL) (ctx : Context)
    (sendOk : Nat → Bool) (id : String) (laptop : Laptop) (scores : List F64)
    (hfind : L.Find ls id = (some laptop, none)) (hctx : ∀ k, ctx k = CtxErr.nil)
    (hsend : ∀ k, sendOk k = true) :
    (RateLaptop L InMemoryRatingStore.asRateStore ls NewInMemoryRatingStore ctx
      ⟨scores.map fun s => ⟨id, s⟩, false⟩ sendOk).err = none ∧
    (RateLaptop L InMemoryRatingStore.asRateStore ls NewInMemoryRatingStore ctx
      ⟨scores.map fun s => ⟨id, s⟩, false⟩ sendOk).panicked = false ∧
    (RateLaptop L InMemoryRatingStore.asRateStore ls NewInMemoryRatingStore ctx
      ⟨scores.map fun s => ⟨id, s⟩, false⟩ sendOk).sent
      = (List.range scores.length).map (kthResponse id scores) ∧
    (scores.length < 2 ^ 32 →
      (RateLaptop L InMemoryRatingStore.asRateStore ls NewInMemoryRatingStore ctx
        ⟨scores.map fun s => ⟨id, s⟩, false⟩ sendOk).sent
        = (List.range scores.length).map fun k =>
            (⟨id, k + 1, F64.div (sumScores (scores.take (k + 1))) (F64.ofUInt32 (k + 1))⟩
              : RateLaptopResponse)) := by
  have h := RateLaptop_same_id L ls ctx sendOk id laptop scores hfind hctx hsend
  rw [h]
  refine ⟨rfl, rfl, rfl, ?_⟩
  intro hlt
  apply List.map_congr_left
  intro k hk
  have hk' : k + 1 < 2 ^ 32 := by
    have := List.mem_range.1 hk
    omega
  simp only [kthResponse, Nat.mod_eq_of_lt hk']

set_option maxRecDepth 8000 in
/-- C10, amended, at the input of the specification: the scores 4.0 and 5.0
for one laptop give the responses count 1, average 4.0 and count 2,
average 4.5. -/
theorem RateLaptop_responses_witness :
    (RateLaptop InMemoryLaptopStore.asLaptopStore InMemoryRatingStore.asRateStore sampleStore
      NewInMemoryRatingStore liveCtx ⟨[⟨ratedId, four⟩, ⟨ratedId, five⟩], false⟩
      (fun _ => true)).sent = [⟨ratedId, 1, four⟩, ⟨ratedId, 2, fourAndHalf⟩] :=
  ((RateLaptop_responses InMemoryLaptopStore.asLaptopStore sampleStore liveCtx (fun _ => true)
    ratedId sampleLaptop [four, five] (by decide) (fun _ => rfl) (fun _ => rfl)).2.2.2
    (by decide)).trans (by decide)

/-! ## Claims on `RateLaptop`: laptops that are not stored -/

theorem rateLoop_append_notFound {σL σR : Type} (L : LaptopStore σL) (R : RateStore σR)
    (ls : σL) (ctx : Context) (failed : Bool) (sendOk : Nat → Bool) (req : RateLaptopRequest)
    (post : List RateLaptopRequest) (hfind : L.Find ls req.LaptopId = (none, none))
    (pre : List RateLaptopRequest) :
    ∀ polls adds sent rs,
      rateLoop L R ls ctx failed sendOk (pre ++ req :: post) polls adds sent rs
        = if (rateLoop L R ls ctx false sendOk pre polls adds sent rs).err = none ∧
              (rateLoop L R ls ctx false sendOk pre polls adds sent rs).panicked = false then
            ⟨some Code.NotFound, false,
              (rateLoop L R ls ctx false sendOk pre polls adds sent rs).adds,
              (rateLoop L R ls ctx false sendOk pre polls adds sent rs).sent,
              (rateLoop L R ls ctx false sendOk pre polls adds sent rs).ratingStore⟩
          else rateLoop L R ls ctx false sendOk pre polls adds sent rs := by
  induction pre with
  | nil =>
    intro polls adds sent rs
    simp only [List.nil_append, rateLoop, hfind]
    cases contextErr (ctx polls) <;> simp
  | cons p pre ih =>
    intro polls adds sent rs
    simp only [List.cons_append, rateLoop]
    cases contextErr (ctx polls) with
    | some code => simp
    | none =>
      simp only
      rcases L.Find ls p.LaptopId with ⟨_ | l, _ | e⟩
      · simp
      · simp
      · simp only
        cases (R.Add rs p.LaptopId p.Score).err with
        | some e => simp
        | none =>
          simp only
          cases (R.Add rs p.LaptopId p.Score).rating.bind
              (R.deref (R.Add rs p.LaptopId p.Score).store) with
          | none => simp
          | some rating =>
            simp only
            cases sendOk sent.length with
            | false => simp
            | true => simp only [if_true]; exact ih _ _ _ _
      · simp

theorem rateLoop_adds_found {σL σR : Type} (L : LaptopStore σL) (R : RateStore σR)
    (ls : σL) (ctx : Context) (failed : Bool) (sendOk : Nat → Bool)
    (msgs : List RateLaptopRequest) :
    ∀ polls adds sent rs, (∀ c ∈ adds, ∃ l, L.Find ls c.1 = (some l, none)) →
      ∀ c ∈ (rateLoop L R ls ctx failed sendOk msgs polls adds sent rs).adds,
        ∃ l, L.Find ls c.1 = (some l, none) := by
  induction msgs with
  | nil =>
    intro polls adds sent rs h
    simp only [rateLoop]
    cases contextErr (ctx polls) with
    | some code => exact h
    | none => cases failed <;> exact h
  | cons p msgs ih =>
    intro polls adds sent rs h
    have h' : ∀ l, L.Find ls p.LaptopId = (some l, none) →
        ∀ c ∈ adds ++ [(p.LaptopId, p.Score)], ∃ l, L.Find ls c.1 = (some l, none) := by
      intro l hl c hc
      rcases List.mem_append.1 hc with hc | hc
      · exact h c hc
      · simp only [List.mem_singleton] at hc
        subst hc
        exact ⟨l, hl⟩
    simp only [rateLoop]
    cases contextErr (ctx polls) with
    | some code => exact h
    | none =>
      simp only
      rcases hf : L.Find ls p.LaptopId with ⟨_ | l, _ | e⟩
      · exact h
      · exact h
      · simp only
        cases (R.Add rs p.LaptopId p.Score).err with
        | some e => exact h' l hf
        | none =>
          simp only
          cases (R.Add rs p.LaptopId p.Score).rating.bind
              (R.deref (R.Add rs p.LaptopId p.Score).store) with
          | none => exact h' l hf
          | some rating =>
            simp only
            cases sendOk sent.length with
            | false => exact h' l hf
            | true => simp only [if_true]; exact ih _ _ _ _ (h' l hf)
      · exact h

theorem rateLoop_store_runAdds {σL : Type} (L : LaptopStore σL) (ls : σL) (ctx : Context)
    (failed : Bool) (sendOk : Nat → Bool) (msgs : List RateLaptopRequest) :
    ∀ polls adds sent (rs : InMemoryRatingStore),
      ∃ new,
        (rateLoop L InMemoryRatingStore.asRateStore ls ctx failed sendOk msgs polls adds sent
          rs).adds = adds ++ new ∧
        (rateLoop L InMemoryRatingStore.asRateStore ls ctx failed sendOk msgs polls adds sent
          rs).ratingStore = rs.runAdds new := by
  induction msgs with
  | nil =>
    intro polls adds sent rs
    refine ⟨[], ?_⟩
    simp only [rateLoop]
    cases contextErr (ctx polls) with
    | some code => simp [InMemoryRatingStore.runAdds]
    | none => cases failed <;> simp [InMemoryRatingStore.runAdds]
  | cons p msgs ih =>
    intro polls adds sent rs
    have hone : rs.runAdds [(p.LaptopId, p.Score)] = (rs.Add p.LaptopId p.Score).store := rfl
    simp only [rateLoop]
    cases contextErr (ctx polls) with
    | some code => exact ⟨[], by simp [InMemoryRatingStore.runAdds]⟩
    | none =>
      simp only
      rcases L.Find ls p.LaptopId with ⟨_ | l, _ | e⟩
      · exact ⟨[], by simp [InMemoryRatingStore.runAdds]⟩
      · exact ⟨[], by simp [InMemoryRatingStore.runAdds]⟩
      · simp only [InMemoryRatingStore.asRateStore]
        cases (rs.Add p.LaptopId p.Score).err with
        | some e => exact ⟨[(p.LaptopId, p.Score)], rfl, hone.symm⟩
        | none =>
          simp only [Option.some_bind]
          cases (rs.Add p.LaptopId p.Score).store.deref (rs.Add p.LaptopId p.Score).rating with
          | none => exact ⟨[(p.LaptopId, p.Score)], rfl, hone.symm⟩
          | some rating =>
            simp only
            cases sendOk sent.length with
            | false => exact ⟨[(p.LaptopId, p.Score)], rfl, hone.symm⟩
            | true =>
              simp only [if_true]
              obtain ⟨new, h1, h2⟩ := ih (polls + 1) (adds ++ [(p.LaptopId, p.Score)])
                (sent ++ [⟨p.LaptopId, rating.Count,
                  F64.div rating.Sum (F64.ofUInt32 rating.Count)⟩])
                (rs.Add p.LaptopId p.Score).store
              refine ⟨(p.LaptopId, p.Score) :: new, ?_, ?_⟩
              · refine Eq.trans h1 ?_
                simp
              · exact h2
      · exact ⟨[], by simp [InMemoryRatingStore.runAdds]⟩

theorem InMemoryRatingStore.get_Add (m : InMemoryRatingStore) (id id' : String) (score : F64)
    (h : ((m.Add id score).store.rating.get id').isSome = true) :
    (m.rating.get id').isSome = true ∨ id' = id := by
  by_cases hid : id' = id
  · exact Or.inr hid
  · left
    unfold InMemoryRatingStore.Add at h
    cases hg : m.rating.get id with
    | none =>
      rw [hg] at h
      simpa [GoMap.get_set_ne _ _ _ _ hid] using h
    | some p =>
      rw [hg] at h
      simpa [GoMap.get_set_ne _ _ _ _ hid] using h

theorem InMemoryRatingStore.get_runAdds (calls : List (String × F64)) :
    ∀ (m : InMemoryRatingStore) (id : String),
      ((m.runAdds calls).rating.get id).isSome = true →
      (m.rating.get id).isSome = true ∨ ∃ c ∈ calls, c.1 = id := by
  induction calls with
  | nil => intro m id h; exact Or.inl h
  | cons c calls ih =>
    intro m id h
    obtain ⟨cid, score⟩ := c
    rcases ih _ id h with h' | ⟨c', hc', hid⟩
    · rcases InMemoryRatingStore.get_Add m cid id score h' with h'' | h''
      · exact Or.inl h''
      · exact Or.inr ⟨(cid, score), List.mem_cons_self _ _, h''.symm⟩
    · exact Or.inr ⟨c', List.mem_cons_of_mem _ hc', hid⟩

/-- C11: let a stream be `pre`, then a request naming a laptop that `Find`
does not return, then `post`, and compare with the run on `pre` followed by
the end of the stream. When that run gets through `pre` and the reading of the
context that follows (the request is then received), the handler returns the
code NotFound, and its calls of `Add`, its responses and the rating store are
those of the run on `pre`: no `Add` and no response for the request, nothing
for the later ones. Otherwise the request is never received and the run is the
one on `pre`. In every run `Add` is only called with ids that `Find` returns a
laptop for, so an in-memory rating store only gains entries for such ids. -/
theorem RateLaptop_not_found {σL σR : Type} (L : LaptopStore σL) (R : RateStore σR) (ls : σL)
    (rs : σR) (ctx : Context) (sendOk : Nat → Bool) :
    (∀ (pre : List RateLaptopRequest) (req : RateLaptopRequest) (post : List RateLaptopRequest)
        (failed : Bool),
      L.Find ls req.LaptopId = (none, none) →
      ((RateLaptop L R ls rs ctx ⟨pre, false⟩ sendOk).err = none →
        (RateLaptop L R ls rs ctx ⟨pre, false⟩ sendOk).panicked = false →
        (RateLaptop L R ls rs ctx ⟨pre ++ req :: post, failed⟩ sendOk).err
          = some Code.NotFound ∧
        (RateLaptop L R ls rs ctx ⟨pre ++ req :: post, failed⟩ sendOk).panicked = false ∧
        (RateLaptop L R ls rs ctx ⟨pre ++ req :: post, failed⟩ sendOk).adds
          = (RateLaptop L R ls rs ctx ⟨pre, false⟩ sendOk).adds ∧
        (RateLaptop L R ls rs ctx ⟨pre ++ req :: post, failed⟩ sendOk).sent
          = (RateLaptop L R ls rs ctx ⟨pre, false⟩ sendOk).sent ∧
        (RateLaptop L R ls rs ctx ⟨pre ++ req :: post, failed⟩ sendOk).ratingStore
          = (RateLaptop L R ls rs ctx ⟨pre, false⟩ sendOk).ratingStore) ∧
      (¬ ((RateLaptop L R ls rs ctx ⟨pre, false⟩ sendOk).err = none ∧
          (RateLaptop L R ls rs ctx ⟨pre, false⟩ sendOk).panicked = false) →
        RateLaptop L R ls rs ctx ⟨pre ++ req :: post, failed⟩ sendOk
          = RateLaptop L R ls rs ctx ⟨pre, false⟩ sendOk)) ∧
    (∀ (inbound : Inbound RateLaptopRequest),
      ∀ c ∈ (RateLaptop L R ls rs ctx inbound sendOk).adds,
        ∃ l, L.Find ls c.1 = (some l, none)) ∧
    (∀ (m : InMemoryRatingStore) (inbound : Inbound RateLaptopRequest) (id : String),
      ((RateLaptop L InMemoryRatingStore.asRateStore ls m ctx inbound sendOk
        ).ratingStore.rating.get id).isSome = true →
      (m.rating.get id).isSome = true ∨ ∃ l, L.Find ls id = (some l, none)) := by
  refine ⟨?_, ?_, ?_⟩
  · intro pre req post failed hfind
    have h := rateLoop_append_notFound L R ls ctx failed sendOk req post hfind pre 0 [] [] rs
    constructor
    · intro herr hpan
      unfold RateLaptop at herr hpan ⊢
      simp only at herr hpan ⊢
      rw [h, if_pos ⟨herr, hpan⟩]
      exact ⟨rfl, rfl, rfl, rfl, rfl⟩
    · intro hnot
      unfold RateLaptop at hnot ⊢
      simp only at hnot ⊢
      rw [h, if_neg hnot]
  · intro inbound c hc
    exact rateLoop_adds_found L R ls ctx inbound.failed sendOk inbound.msgs 0 [] [] rs
      (fun c hc => absurd hc (List.not_mem_nil c)) c hc
  · intro m inbound id hid
    obtain ⟨new, h1, h2⟩ := rateLoop_store_runAdds L ls ctx inbound.failed sendOk inbound.msgs
      0 [] [] m
    unfold RateLaptop at hid
    rw [h2] at hid
    rcases InMemoryRatingStore.get_runAdds new m id hid with h | ⟨c, hc, hcid⟩
    · exact Or.inl h
    · right
      have hmem : c ∈ (rateLoop L InMemoryRatingStore.asRateStore ls ctx inbound.failed sendOk
          inbound.msgs 0 [] [] m).adds := by
        rw [h1]
        simpa using hc
      have := rateLoop_adds_found L InMemoryRatingStore.asRateStore ls ctx inbound.failed sendOk
        inbound.msgs 0 [] [] m (fun c hc => absurd hc (List.not_mem_nil c)) c hmem
      rw [hcid] at this
      exact this

set_option maxRecDepth 8000 in
/-- C11, at a concrete input: 4.0 for a stored laptop, then 5.0 for a laptop
that is not stored, then 5.0 for the stored one. The stream ends with
NotFound after one `Add` and one response. -/
theorem RateLaptop_not_found_witness :
    (RateLaptop InMemoryLaptopStore.asLaptopStore InMemoryRatingStore.asRateStore sampleStore
      NewInMemoryRatingStore liveCtx ⟨mixedRatings, false⟩ (fun _ => true)).err
      = some Code.NotFound ∧
    (RateLaptop InMemoryLaptopStore.asLaptopStore InMemoryRatingStore.asRateStore sampleStore
      NewInMemoryRatingStore liveCtx ⟨mixedRatings, false⟩ (fun _ => true)).adds
      = [(ratedId, four)] ∧
    (RateLaptop InMemoryLaptopStore.asLaptopStore InMemoryRatingStore.asRateStore sampleStore
      NewInMemoryRatingStore liveCtx ⟨mixedRatings, false⟩ (fun _ => true)).sent
      = [⟨ratedId, 1, four⟩] :=
  have h := ((RateLaptop_not_found InMemoryLaptopStore.asLaptopStore
    InMemoryRatingStore.asRateStore sampleStore NewInMemoryRatingStore liveCtx
    (fun _ => true)).1 [⟨ratedId, four⟩] ⟨"missing", five⟩ [⟨ratedId, five⟩] false
    (by decide)).1 (by decide) (by decide)
  ⟨h.1, h.2.2.1.trans (by decide), h.2.2.2.1.trans (by decide)⟩

/-! ## Claims on `CreateLaptop`: the context -/

/-- C12: whatever the store, let the laptop id of a request be a valid UUID,
or be empty with `uuid.NewRandom` returning an id, so that the handler reads
the context. If the context is canceled at that reading, the handler returns
no response and the code Canceled; if it is past its deadline, no response and
the code DeadlineExceeded; in both cases `Save` is not called and the store is
the one before the call. In the remaining case, an empty id for which
`uuid.NewRandom` fails, the handler returns the code Internal without reading
the context, and again without calling `Save`. -/
theorem CreateLaptop_context_error {σ : Type} (S : LaptopStore σ) (parse : String → Bool)
    (newRandom : Option String) (ctx : Context) (st : σ) (req : CreateLaptopRequest)
    (laptop : Laptop) (hreq : req.Laptop = some laptop) :
    ((laptop.Id ≠ "" ∧ parse laptop.Id = true) ∨ (laptop.Id = "" ∧ newRandom.isSome = true) →
      (ctx 0 = CtxErr.Canceled →
        (CreateLaptop S parse newRandom ctx st req).res = none ∧
        (CreateLaptop S parse newRandom ctx st req).err = some Code.Canceled ∧
        (CreateLaptop S parse newRandom ctx st req).saves = [] ∧
        (CreateLaptop S parse newRandom ctx st req).store = st) ∧
      (ctx 0 = CtxErr.DeadlineExceeded →
        (CreateLaptop S parse newRandom ctx st req).res = none ∧
        (CreateLaptop S parse newRandom ctx st req).err = some Code.DeadlineExceeded ∧
        (CreateLaptop S parse newRandom ctx st req).saves = [] ∧
        (CreateLaptop S parse newRandom ctx st req).store = st)) ∧
    (laptop.Id = "" → newRandom = none →
      (CreateLaptop S parse newRandom ctx st req).res = none ∧
      (CreateLaptop S parse newRandom ctx st req).err = some Code.Internal ∧
      (CreateLaptop S parse newRandom ctx st req).saves = [] ∧
      (CreateLaptop S parse newRandom ctx st req).store = st) := by
  constructor
  · rintro (⟨hne, hparse⟩ | ⟨hempty, hsome⟩)
    · constructor
      · intro hctx
        simp [CreateLaptop, hreq, hne, hparse, hctx, contextErr]
      · intro hctx
        simp [CreateLaptop, hreq, hne, hparse, hctx, contextErr]
    · obtain ⟨id, hid⟩ := Option.isSome_iff_exists.1 hsome
      constructor
      · intro hctx
        simp [CreateLaptop, hreq, hempty, hid, hctx, contextErr]
      · intro hctx
        simp [CreateLaptop, hreq, hempty, hid, hctx, contextErr]
  · intro hempty hnone
    simp [CreateLaptop, hreq, hempty, hnone]

/-- C12, at concrete inputs: a laptop with a valid id under a canceled context,
a laptop without id, for which an id is drawn, under an expired one. -/
theorem CreateLaptop_context_error_witness :
    (CreateLaptop InMemoryLaptopStore.asLaptopStore uuidParse none canceledCtx
        NewInMemoryLaptopStore ⟨some sampleLaptop⟩).err = some Code.Canceled ∧
    (CreateLaptop InMemoryLaptopStore.asLaptopStore uuidParse none canceledCtx
        NewInMemoryLaptopStore ⟨some sampleLaptop⟩).store = NewInMemoryLaptopStore ∧
    (CreateLaptop InMemoryLaptopStore.asLaptopStore uuidParse (some ratedId) expiredCtx
        NewInMemoryLaptopStore ⟨some noIdLaptop⟩).err = some Code.DeadlineExceeded :=
  have h1 := ((CreateLaptop_context_error InMemoryLaptopStore.asLaptopStore uuidParse none
    canceledCtx NewInMemoryLaptopStore ⟨some sampleLaptop⟩ sampleLaptop rfl).1
    (Or.inl ⟨by decide, by decide⟩)).1 rfl
  have h2 := ((CreateLaptop_context_error InMemoryLaptopStore.asLaptopStore uuidParse
    (some ratedId) expiredCtx NewInMemoryLaptopStore ⟨some noIdLaptop⟩ noIdLaptop rfl).1
    (Or.inr ⟨rfl, rfl⟩)).2 rfl
  ⟨h1.2.1, h1.2.2.2, h2.2.1⟩

/-! ## Claims on `rate_store.go`: the pointer returned by `Add` -/

theorem InMemoryRatingStore.get_Add_self (m : InMemoryRatingStore) (id : String) (score : F64) :
    (m.Add id score).store.rating.get id = some (m.Add id score).rating := by
  unfold InMemoryRatingStore.Add
  cases hg : m.rating.get id with
  | none => simp [GoMap.get_set_self]
  | some p => simp [GoMap.get_set_self]

theorem InMemoryRatingStore.Add_rating_of_get (m : InMemoryRatingStore) (id : String)
    (score : F64) (p : Nat) (h : m.rating.get id = some p) : (m.Add id score).rating = p := by
  unfold InMemoryRatingStore.Add
  rw [h]

/-- The object behind the pointer that `Add` returns is the one the store
keeps: a second `Add` for the id returns the same pointer, and what is read
through it is then the rating after both calls. -/
theorem InMemoryRatingStore.Add_then_Add_deref (m : InMemoryRatingStore) (hwf : m.WF)
    (id : String) (s1 s2 : F64) :
    ((m.Add id s1).store.Add id s2).rating = (m.Add id s1).rating ∧
    (m.Add id s1).store.deref (m.Add id s1).rating = some (addStep (m.view id) s1) ∧
    ((m.Add id s1).store.Add id s2).store.deref (m.Add id s1).rating
      = some (addStep (some (addStep (m.view id) s1)) s2) := by
  have hwf1 := InMemoryRatingStore.WF_Add m hwf id s1
  have h1 := InMemoryRatingStore.Add_view_self m hwf id s1
  have h2 := InMemoryRatingStore.Add_view_self (m.Add id s1).store hwf1 id s2
  have hptr : ((m.Add id s1).store.Add id s2).rating = (m.Add id s1).rating :=
    InMemoryRatingStore.Add_rating_of_get _ id s2 _ (InMemoryRatingStore.get_Add_self m id s1)
  refine ⟨hptr, h1.2.1, ?_⟩
  rw [← hptr, h2.2.1, h1.1]

/-- C13 fails on the code: on a fresh store, `Add(id, 4.0)` returns a pointer
through which count 1 and sum 4.0 are read; after `Add(id, 5.0)`, which
returns the same pointer, count 2 and sum 9.0 are read through it. -/
theorem InMemoryRatingStore.Add_returns_live_pointer :
    (NewInMemoryRatingStore.Add ratedId four).store.deref
        (NewInMemoryRatingStore.Add ratedId four).rating = some ⟨1, four⟩ ∧
    ((NewInMemoryRatingStore.Add ratedId four).store.Add ratedId five).store.deref
        (NewInMemoryRatingStore.Add ratedId four).rating = some ⟨2, nine⟩ ∧
    ((NewInMemoryRatingStore.Add ratedId four).store.Add ratedId five).rating
      = (NewInMemoryRatingStore.Add ratedId four).rating := by
  decide

/-! ## Rounding and order of `float64` addition -/

theorem F64.bitLenAux_zero (fuel : Nat) : F64.bitLenAux fuel 0 = 0 := by
  cases fuel <;> simp [F64.bitLenAux]

theorem F64.bitLenAux_spec : ∀ (fuel m : Nat), m < 2 ^ fuel → 0 < m →
    0 < F64.bitLenAux fuel m ∧ 2 ^ (F64.bitLenAux fuel m - 1) ≤ m ∧
      m < 2 ^ F64.bitLenAux fuel m := by
  intro fuel
  induction fuel with
  | zero =>
    intro m h1 h2
    simp at h1
    omega
  | succ fuel ih =>
    intro m h1 h2
    have hm : m ≠ 0 := by omega
    simp only [F64.bitLenAux, if_neg hm]
    by_cases h0 : m / 2 = 0
    · rw [h0, F64.bitLenAux_zero]
      have : m = 1 := by omega
      subst this
      simp
    · have hlt : m / 2 < 2 ^ fuel := by
        rw [Nat.pow_succ] at h1
        omega
      obtain ⟨hk, hlo, hhi⟩ := ih (m / 2) hlt (by omega)
      refine ⟨by omega, ?_, ?_⟩
      · have hp : 2 ^ (F64.bitLenAux fuel (m / 2) + 1 - 1)
            = 2 * 2 ^ (F64.bitLenAux fuel (m / 2) - 1) := by
          rw [Nat.add_sub_cancel, ← Nat.pow_succ']
          congr 1
          omega
        rw [hp]
        omega
      · rw [Nat.pow_succ]
        omega

theorem F64.bitLen_spec (m : Nat) (hm : 0 < m) :
    0 < F64.bitLen m ∧ 2 ^ (F64.bitLen m - 1) ≤ m ∧ m < 2 ^ F64.bitLen m :=
  F64.bitLenAux_spec m m (Nat.lt_two_pow m) hm

theorem F64.roundPack_nat (neg : Bool) (m a : Nat) :
    F64.roundPack neg m ((a : Int) - 1074) false =
      if F64.roundExp m a * 2 ^ 52 + F64.roundMant m a ≥ 2047 * 2 ^ 52 then F64.inf neg
      else ⟨(if neg then 2 ^ 63 else 0) + (F64.roundExp m a * 2 ^ 52 + F64.roundMant m a)⟩ := by
  have hq : max ((a : Int) - 1074 + (F64.bitLen m : Int) - 53) (-1074)
      = ((a + F64.bitLen m - 53 : Nat) : Int) - 1074 := by omega
  have h1 : (((a + F64.bitLen m - 53 : Nat) : Int) - 1074 + 1074).toNat
      = a + F64.bitLen m - 53 := by omega
  have h2 : ((a : Int) - 1074 - (((a + F64.bitLen m - 53 : Nat) : Int) - 1074)).toNat
      = a - (a + F64.bitLen m - 53) := by omega
  have h3 : ((((a + F64.bitLen m - 53 : Nat) : Int) - 1074) - ((a : Int) - 1074)).toNat
      = a + F64.bitLen m - 53 - a := by omega
  have h4 : (((a + F64.bitLen m - 53 : Nat) : Int) - 1074 ≤ (a : Int) - 1074)
      ↔ a + F64.bitLen m - 53 ≤ a := by omega
  unfold F64.roundPack F64.roundMant F64.roundExp
  simp only [hq, h1, h2, h3, h4, Bool.false_eq_true, false_or]

theorem F64.roundMant_le (m a : Nat) (hm : 0 < m) : F64.roundMant m a ≤ 2 ^ 53 := by
  obtain ⟨hL, hlo, hhi⟩ := F64.bitLen_spec m hm
  unfold F64.roundMant
  by_cases hQ : F64.roundExp m a ≤ a
  · rw [if_pos hQ]
    have hk : F64.bitLen m + (a - F64.roundExp m a) ≤ 53 := by
      unfold F64.roundExp at hQ ⊢
      omega
    have h1 : m * 2 ^ (a - F64.roundExp m a)
        < 2 ^ F64.bitLen m * 2 ^ (a - F64.roundExp m a) :=
      Nat.mul_lt_mul_of_pos_right hhi (Nat.pos_pow_of_pos _ (by decide))
    rw [← Nat.pow_add] at h1
    exact Nat.le_of_lt (Nat.lt_of_lt_of_le h1 (Nat.pow_le_pow_right (by decide) hk))
  · rw [if_neg hQ]
    have hsh : F64.bitLen m = 53 + (F64.roundExp m a - a) := by
      unfold F64.roundExp at hQ ⊢
      omega
    have h0 : m / 2 ^ (F64.roundExp m a - a) < 2 ^ 53 := by
      apply Nat.div_lt_of_lt_mul
      rw [hsh, Nat.pow_add, Nat.mul_comm] at hhi
      exact hhi
    split <;> omega

theorem F64.roundMant_ge (m a : Nat) (hm : 0 < m) (hQ0 : 0 < F64.roundExp m a) :
    2 ^ 52 ≤ F64.roundMant m a := by
  obtain ⟨hL, hlo, hhi⟩ := F64.bitLen_spec m hm
  unfold F64.roundMant
  by_cases hQ : F64.roundExp m a ≤ a
  · rw [if_pos hQ]
    have hk : F64.bitLen m - 1 + (a - F64.roundExp m a) = 52 := by
      unfold F64.roundExp at hQ hQ0 ⊢
      omega
    have h1 : 2 ^ (F64.bitLen m - 1) * 2 ^ (a - F64.roundExp m a)
        ≤ m * 2 ^ (a - F64.roundExp m a) := Nat.mul_le_mul_right _ hlo
    rw [← Nat.pow_add, hk] at h1
    exact h1
  · rw [if_neg hQ]
    have hsh : F64.bitLen m - 1 = 52 + (F64.roundExp m a - a) := by
      unfold F64.roundExp at hQ ⊢
      omega
    have h0 : 2 ^ 52 ≤ m / 2 ^ (F64.roundExp m a - a) := by
      rw [Nat.le_div_iff_mul_le (Nat.pos_pow_of_pos _ (by decide)), ← Nat.pow_add, ← hsh]
      exact hlo
    split <;> omega

theorem F64.round_lower (m a ax mx : Nat) (hm : 0 < m) (ha : a ≤ ax) (hmx : mx < 2 ^ 53)
    (hnorm : 0 < ax → 2 ^ 52 ≤ mx) (hval : mx * 2 ^ (ax - a) ≤ m) :
    ax * 2 ^ 52 + mx ≤ F64.roundExp m a * 2 ^ 52 + F64.roundMant m a := by
  obtain ⟨hL, hlo, hhi⟩ := F64.bitLen_spec m hm
  rcases Nat.lt_trichotomy (F64.roundExp m a) ax with hlt | heq | hgt
  · exfalso
    have hmx' := hnorm (by omega)
    have h1 : 2 ^ 52 * 2 ^ (ax - a) ≤ m :=
      Nat.le_trans (Nat.mul_le_mul_right _ hmx') hval
    rw [← Nat.pow_add] at h1
    have h2 : 2 ^ (52 + (ax - a)) < 2 ^ F64.bitLen m := Nat.lt_of_le_of_lt h1 hhi
    have h3 : 52 + (ax - a) < F64.bitLen m := (Nat.pow_lt_pow_iff_right (by decide)).1 h2
    unfold F64.roundExp at hlt
    omega
  · have hR : mx ≤ F64.roundMant m a := by
      unfold F64.roundMant
      by_cases hQ : F64.roundExp m a ≤ a
      · rw [if_pos hQ]
        have haa : ax - a = 0 := by omega
        have hbb : a - F64.roundExp m a = 0 := by omega
        rw [haa] at hval
        rw [hbb]
        simpa using hval
      · rw [if_neg hQ]
        have h0 : mx ≤ m / 2 ^ (F64.roundExp m a - a) := by
          rw [Nat.le_div_iff_mul_le (Nat.pos_pow_of_pos _ (by decide)), heq]
          exact hval
        split <;> omega
    rw [heq]
    omega
  · have hR := F64.roundMant_ge m a hm (by omega)
    have h1 : (ax + 1) * 2 ^ 52 ≤ F64.roundExp m a * 2 ^ 52 := Nat.mul_le_mul_right _ hgt
    omega

theorem F64.round_upper (m a ax mx : Nat) (hm : 0 < m) (ha : a ≤ ax) (hmx : mx < 2 ^ 53)
    (hnorm : 0 < ax → 2 ^ 52 ≤ mx) (hval : m ≤ mx * 2 ^ (ax - a)) :
    F64.roundExp m a * 2 ^ 52 + F64.roundMant m a ≤ ax * 2 ^ 52 + mx := by
  obtain ⟨hL, hlo, hhi⟩ := F64.bitLen_spec m hm
  rcases Nat.lt_trichotomy (F64.roundExp m a) ax with hlt | heq | hgt
  · have hR := F64.roundMant_le m a hm
    have hmx' := hnorm (by omega)
    have h1 : (F64.roundExp m a + 1) * 2 ^ 52 ≤ ax * 2 ^ 52 := Nat.mul_le_mul_right _ hlt
    omega
  · have hR : F64.roundMant m a ≤ mx := by
      unfold F64.roundMant
      by_cases hQ : F64.roundExp m a ≤ a
      · rw [if_pos hQ]
        have haa : ax - a = 0 := by omega
        have hbb : a - F64.roundExp m a = 0 := by omega
        rw [haa] at hval
        rw [hbb]
        simpa using hval
      · rw [if_neg hQ]
        have hpos : 0 < 2 ^ (F64.roundExp m a - a) := Nat.pos_pow_of_pos _ (by decide)
        have hhalf : 0 < 2 ^ (F64.roundExp m a - a - 1) := Nat.pos_pow_of_pos _ (by decide)
        have h0 : m / 2 ^ (F64.roundExp m a - a) ≤ mx := by
          apply Nat.div_le_of_le_mul
          rw [heq, Nat.mul_comm]
          exact hval
        split
        · rename_i hup
          have hrem : 0 < m % 2 ^ (F64.roundExp m a - a) := by
            rcases hup with h | ⟨h, _⟩ <;> omega
          by_contra hcon
          have h1 : mx ≤ m / 2 ^ (F64.roundExp m a - a) := by omega
          have h2 : mx * 2 ^ (F64.roundExp m a - a)
              ≤ m / 2 ^ (F64.roundExp m a - a) * 2 ^ (F64.roundExp m a - a) :=
            Nat.mul_le_mul_right _ h1
          have h3 := Nat.div_add_mod m (2 ^ (F64.roundExp m a - a))
          rw [heq] at h2 h3 hrem
          rw [Nat.mul_comm] at h3
          omega
        · exact h0
    rw [heq]
    omega
  · exfalso
    have h1 : m < 2 ^ 53 * 2 ^ (ax - a) :=
      Nat.lt_of_le_of_lt hval (Nat.mul_lt_mul_of_pos_right hmx (Nat.pos_pow_of_pos _ (by decide)))
    rw [← Nat.pow_add] at h1
    have h2 : 2 ^ (F64.bitLen m - 1) < 2 ^ (53 + (ax - a)) := Nat.lt_of_le_of_lt hlo h1
    have h3 : F64.bitLen m - 1 < 53 + (ax - a) := (Nat.pow_lt_pow_iff_right (by decide)).1 h2
    unfold F64.roundExp at hgt
    omega

theorem F64.mag_eq (x : F64) : x.bits % 2 ^ 63 = (x.expField - 1) * 2 ^ 52 + x.mant := by
  unfold F64.mant F64.expField F64.fracField
  split <;> omega

theorem F64.mant_lt (x : F64) : x.mant < 2 ^ 53 := by
  unfold F64.mant F64.fracField
  split <;> omega

theorem F64.mant_ge (x : F64) (h : 0 < x.expField - 1) : 2 ^ 52 ≤ x.mant := by
  unfold F64.mant
  split <;> omega

theorem F64.ulpExp_eq (x : F64) : x.ulpExp = ((x.expField - 1 : Nat) : Int) - 1074 := by
  unfold F64.ulpExp
  split <;> omega

theorem F64.expField_lt (x : F64) : x.expField < 2048 := by
  unfold F64.expField
  omega

theorem F64.key_eq (x : F64) :
    x.key = if x.sign then -((x.bits % 2 ^ 63 : Nat) : Int) else ((x.bits % 2 ^ 63 : Nat) : Int) :=
  rfl

theorem F64.pack_props (neg : Bool) (b : Nat) :
    (if b ≥ 2047 * 2 ^ 52 then F64.inf neg else ⟨(if neg then 2 ^ 63 else 0) + b⟩ : F64).key
      = (if neg then -((min b (2047 * 2 ^ 52) : Nat) : Int)
          else ((min b (2047 * 2 ^ 52) : Nat) : Int)) := by
  by_cases hb : b ≥ 2047 * 2 ^ 52
  · rw [if_pos hb]
    cases neg <;> simp [F64.key, F64.sign, F64.inf] <;> omega
  · rw [if_neg hb]
    cases neg <;> simp [F64.key, F64.sign] <;> omega

theorem F64.isNaN_false_of_finite (x : F64) (h : x.expField ≠ 2047) : x.isNaN = false := by
  simp [F64.isNaN, h]

theorem F64.isInf_false_of_finite (x : F64) (h : x.expField ≠ 2047) : x.isInf = false := by
  simp [F64.isInf, h]

theorem F64.add_finite (x y : F64) (hx : x.expField ≠ 2047) (hy : y.expField ≠ 2047) :
    F64.add x y =
      if (if x.sign then
            -((x.mant * 2 ^ (x.expField - 1 - min (x.expField - 1) (y.expField - 1)) : Nat) : Int)
          else ((x.mant * 2 ^ (x.expField - 1 - min (x.expField - 1) (y.expField - 1)) : Nat)
            : Int)) +
          (if y.sign then
            -((y.mant * 2 ^ (y.expField - 1 - min (x.expField - 1) (y.expField - 1)) : Nat) : Int)
          else ((y.mant * 2 ^ (y.expField - 1 - min (x.expField - 1) (y.expField - 1)) : Nat)
            : Int)) = 0
      then F64.signedZero (x.sign && y.sign)
      else F64.roundPack
        (decide ((if x.sign then
            -((x.mant * 2 ^ (x.expField - 1 - min (x.expField - 1) (y.expField - 1)) : Nat) : Int)
          else ((x.mant * 2 ^ (x.expField - 1 - min (x.expField - 1) (y.expField - 1)) : Nat)
            : Int)) +
          (if y.sign then
            -((y.mant * 2 ^ (y.expField - 1 - min (x.expField - 1) (y.expField - 1)) : Nat) : Int)
          else ((y.mant * 2 ^ (y.expField - 1 - min (x.expField - 1) (y.expField - 1)) : Nat)
            : Int)) < 0))
        ((if x.sign then
            -((x.mant * 2 ^ (x.expField - 1 - min (x.expField - 1) (y.expField - 1)) : Nat) : Int)
          else ((x.mant * 2 ^ (x.expField - 1 - min (x.expField - 1) (y.expField - 1)) : Nat)
            : Int)) +
          (if y.sign then
            -((y.mant * 2 ^ (y.expField - 1 - min (x.expField - 1) (y.expField - 1)) : Nat) : Int)
          else ((y.mant * 2 ^ (y.expField - 1 - min (x.expField - 1) (y.expField - 1)) : Nat)
            : Int))).natAbs
        (((min (x.expField - 1) (y.expField - 1) : Nat) : Int) - 1074) false := by
  have he : min x.ulpExp y.ulpExp
      = ((min (x.expField - 1) (y.expField - 1) : Nat) : Int) - 1074 := by
    rw [F64.ulpExp_eq x, F64.ulpExp_eq y]
    omega
  have h1 : (x.ulpExp - (((min (x.expField - 1) (y.expField - 1) : Nat) : Int) - 1074)).toNat
      = x.expField - 1 - min (x.expField - 1) (y.expField - 1) := by
    rw [F64.ulpExp_eq x]
    omega
  have h2 : (y.ulpExp - (((min (x.expField - 1) (y.expField - 1) : Nat) : Int) - 1074)).toNat
      = y.expField - 1 - min (x.expField - 1) (y.expField - 1) := by
    rw [F64.ulpExp_eq y]
    omega
  unfold F64.add
  simp only [F64.isNaN_false_of_finite x hx, F64.isNaN_false_of_finite y hy,
    F64.isInf_false_of_finite x hx, F64.isInf_false_of_finite y hy, Bool.or_self,
    Bool.false_eq_true, if_false, he, h1, h2]

theorem F64.key_inf (neg : Bool) :
    (F64.inf neg).key = if neg then -((2047 * 2 ^ 52 : Nat) : Int) else ((2047 * 2 ^ 52 : Nat) : Int) := by
  cases neg <;> decide

theorem F64.key_signedZero (neg : Bool) : (F64.signedZero neg).key = 0 := by
  cases neg <;> decide

theorem F64.key_le_add (x y : F64) (hx : x.isNaN = false) (hy : y.isNaN = false)
    (hy0 : 0 ≤ y.key) (hxy : (F64.add x y).isNaN = false) : x.key ≤ (F64.add x y).key := by
  have hmx := F64.mag_eq x
  have hmy := F64.mag_eq y
  have hxlt := F64.mant_lt x
  have hylt := F64.mant_lt y
  have hxe := F64.expField_lt x
  have hye := F64.expField_lt y
  rw [F64.key_eq] at hy0
  by_cases hxf : x.expField = 2047
  · -- x is an infinity
    have hxfrac : x.fracField = 0 := by
      simpa [F64.isNaN, hxf] using hx
    have hxinf : x.isInf = true := by simp [F64.isInf, hxf, hxfrac]
    have hxmant : x.mant = 2 ^ 52 := by simp [F64.mant, hxf, hxfrac]
    have hadd : F64.add x y
        = if (y.isInf && (x.sign != y.sign)) = true then F64.nan else F64.inf x.sign := by
      simp [F64.add, hx, hy, hxinf]
    by_cases hc : (y.isInf && (x.sign != y.sign)) = true
    · rw [hadd, if_pos hc] at hxy
      exact absurd hxy (by decide)
    · rw [hadd, if_neg hc, F64.key_inf, F64.key_eq, hmx, hxf, hxmant]
      split <;> omega
  · by_cases hyf : y.expField = 2047
    · -- x is finite, y is an infinity
      have hyfrac : y.fracField = 0 := by
        simpa [F64.isNaN, hyf] using hy
      have hyinf : y.isInf = true := by simp [F64.isInf, hyf, hyfrac]
      have hymant : y.mant = 2 ^ 52 := by simp [F64.mant, hyf, hyfrac]
      have hxinf := F64.isInf_false_of_finite x hxf
      have hysign : y.sign = false := by
        cases hs : y.sign with
        | false => rfl
        | true =>
          rw [hs, hmy, hyf, hymant] at hy0
          simp at hy0
      have hadd : F64.add x y = F64.inf false := by
        simp [F64.add, hx, hy, hxinf, hyinf, hysign]
      rw [hadd, F64.key_inf, F64.key_eq, hmx]
      split <;> simp <;> omega
    · -- both are finite
      have hax : min (x.expField - 1) (y.expField - 1) ≤ x.expField - 1 := Nat.min_le_left _ _
      have hay : min (x.expField - 1) (y.expField - 1) ≤ y.expField - 1 := Nat.min_le_right _ _
      have hpx : 0 < 2 ^ (x.expField - 1 - min (x.expField - 1) (y.expField - 1)) :=
        Nat.pos_pow_of_pos _ (by decide)
      have hsy : 0 ≤ (if y.sign then
            -((y.mant * 2 ^ (y.expField - 1 - min (x.expField - 1) (y.expField - 1)) : Nat) : Int)
          else ((y.mant * 2 ^ (y.expField - 1 - min (x.expField - 1) (y.expField - 1)) : Nat)
            : Int)) := by
        cases hs : y.sign with
        | false => simp
        | true =>
          rw [hs] at hy0
          have hm0 : y.mant = 0 := by
            simp only [if_true] at hy0
            omega
          simp [hm0]
      rw [F64.add_finite x y hxf hyf, F64.key_eq, hmx]
      generalize hvy : (if y.sign then
            -((y.mant * 2 ^ (y.expField - 1 - min (x.expField - 1) (y.expField - 1)) : Nat) : Int)
          else ((y.mant * 2 ^ (y.expField - 1 - min (x.expField - 1) (y.expField - 1)) : Nat)
            : Int)) = sy at hsy ⊢
      generalize hvx : x.mant * 2 ^ (x.expField - 1 - min (x.expField - 1) (y.expField - 1))
        = vx
      have hnormx := F64.mant_ge x
      have hxfin : (x.expField - 1) * 2 ^ 52 + x.mant < 2047 * 2 ^ 52 := by omega
      cases hs : x.sign with
      | false =>
        simp only [Bool.false_eq_true, if_false, Bool.false_and]
        by_cases h0 : (vx : Int) + sy = 0
        · rw [if_pos h0, F64.key_signedZero]
          have hvx0 : vx = 0 := by omega
          rw [hvx0] at hvx
          have hm0 : x.mant = 0 := by
            rcases Nat.mul_eq_zero.1 hvx with h | h
            · exact h
            · omega
          have he0 : ¬ 0 < x.expField - 1 := by
            intro h
            have := hnormx h
            omega
          have he1 : x.expField - 1 = 0 := by omega
          rw [hm0, he1]
          simp
        · rw [if_neg h0, F64.roundPack_nat, F64.pack_props]
          have hneg : ¬ ((vx : Int) + sy < 0) := by omega
          simp only [hneg, decide_False, Bool.false_eq_true, if_false]
          have hlow := F64.round_lower ((vx : Int) + sy).natAbs
            (min (x.expField - 1) (y.expField - 1)) (x.expField - 1) x.mant (by omega) hax hxlt
            hnormx (by rw [hvx]; omega)
          omega
      | true =>
        simp only [if_true, Bool.true_and]
        by_cases h0 : -(vx : Int) + sy = 0
        · rw [if_pos h0, F64.key_signedZero]
          omega
        · rw [if_neg h0, F64.roundPack_nat, F64.pack_props]
          by_cases hneg : -(vx : Int) + sy < 0
          · simp only [hneg, decide_True, if_true]
            have hup := F64.round_upper (-(vx : Int) + sy).natAbs
              (min (x.expField - 1) (y.expField - 1)) (x.expField - 1) x.mant (by omega) hax
              hxlt hnormx (by rw [hvx]; omega)
            omega
          · simp only [hneg, decide_False, Bool.false_eq_true, if_false]
            omega

/-- Adding a value that is `>= 0` never gives a smaller value, NaN apart. -/
theorem F64.le_add_of_nonneg (x y : F64) (hx : x.isNaN = false)
    (hy : F64.le F64.zero y = true) (hxy : (F64.add x y).isNaN = false) :
    F64.le x (F64.add x y) = true := by
  have hz : F64.zero.key = 0 := by decide
  simp only [F64.le, Bool.and_eq_true, Bool.not_eq_true', decide_eq_true_eq, hz] at hy
  simp only [F64.le, hx, hxy, Bool.not_false, Bool.true_and, decide_eq_true_eq]
  exact F64.key_le_add x y hx hy.1.2 hy.2 hxy

/-! ## Claims on `rate_store.go`: the rating invariant -/

theorem InMemoryRatingStore.count_view_runAdds (calls : List (String × F64)) (id : String)
    (hne : scoresOf id calls ≠ []) :
    ((NewInMemoryRatingStore.runAdds calls).view id).map Rating.Count
      = some ((scoresOf id calls).length % 2 ^ 32) := by
  rw [InMemoryRatingStore.view_runAdds id calls _ InMemoryRatingStore.WF_new_rating]
  have hv : NewInMemoryRatingStore.view id = none := rfl
  rw [hv]
  cases hs : scoresOf id calls with
  | nil => exact absurd hs hne
  | cons s rest =>
    rw [foldl_addStep_none]
    simp

theorem InMemoryRatingStore.count_view_Add_runAdds (calls : List (String × F64)) (id : String)
    (score : F64) :
    (((NewInMemoryRatingStore.runAdds calls).Add id score).store.view id).map Rating.Count
      = some ((scoresOf id (calls ++ [(id, score)])).length % 2 ^ 32) := by
  have hwf := InMemoryRatingStore.WF_runAdds calls _ InMemoryRatingStore.WF_new_rating
  have h := InMemoryRatingStore.Add_view_self _ hwf id score
  have h' := InMemoryRatingStore.Add_after_runAdds calls id score
  rw [h.1, ← h.2.1, h'.2]
  rfl

/-- C14 as stated fails. After `Add(id, 4.0)` on a fresh store, `Add(id, -1.0)`
leaves the sum 3.0, which is smaller than 4.0. After `2^32 - 1` calls of `Add`
for one id the count stored is `2^32 - 1`, and one more `Add` leaves the
count 0: smaller than before and below 1. -/
theorem InMemoryRatingStore.Add_invariant_counterexample :
    ((NewInMemoryRatingStore.Add ratedId four).store.view ratedId = some ⟨1, four⟩ ∧
      ((NewInMemoryRatingStore.Add ratedId four).store.Add ratedId minusOne).store.view ratedId
        = some ⟨2, three⟩ ∧
      F64.le four three = false) ∧
    (((NewInMemoryRatingStore.runAdds (List.replicate (2 ^ 32 - 1) (ratedId, four))).view
        ratedId).map Rating.Count = some (2 ^ 32 - 1) ∧
      (((NewInMemoryRatingStore.runAdds (List.replicate (2 ^ 32 - 1) (ratedId, four))).Add
        ratedId four).store.view ratedId).map Rating.Count = some 0) := by
  refine ⟨by decide, ?_, ?_⟩
  · have hne : scoresOf ratedId (List.replicate (2 ^ 32 - 1) (ratedId, four)) ≠ [] := by
      rw [scoresOf_replicate]
      intro h
      have hl := congrArg List.length h
      rw [List.length_replicate] at hl
      exact absurd hl (by decide)
    rw [InMemoryRatingStore.count_view_runAdds _ _ hne, scoresOf_replicate,
      List.length_replicate]
    rfl
  · rw [InMemoryRatingStore.count_view_Add_runAdds, scoresOf_append_self, scoresOf_replicate,
      List.length_append, List.length_replicate]
    rfl

/-- C14, amended: on a store built by `Add`, after `Add(id, score)` the ratings
of the other ids are unchanged, and the rating of `id` has count 1 and sum
`score` if it is new, and otherwise the old count plus 1 modulo `2^32` and the
`float64` sum of the old sum and `score`. Hence, when the count of `id` was
below `2^32 - 1`: if every stored count was at least 1 before the call, every
stored count is at least 1 after it, and no stored count is smaller than
before. And when `score >= 0` and the sums of `id` before and after the call
are not NaN, no stored sum that is not NaN is smaller than before. -/
theorem InMemoryRatingStore.Add_invariant (m : InMemoryRatingStore) (hwf : m.WF) (id : String)
    (score : F64) :
    (∀ id', id' ≠ id → (m.Add id score).store.view id' = m.view id') ∧
    (m.Add id score).store.view id = some (addStep (m.view id) score) ∧
    ((∀ id' r, m.view id' = some r → 1 ≤ r.Count) →
      (∀ r, m.view id = some r → r.Count < 2 ^ 32 - 1) →
      ∀ id' r', (m.Add id score).store.view id' = some r' → 1 ≤ r'.Count) ∧
    (∀ id' r, m.view id' = some r → (id' = id → r.Count < 2 ^ 32 - 1) →
      ∃ r', (m.Add id score).store.view id' = some r' ∧ r.Count ≤ r'.Count) ∧
    (∀ id' r, m.view id' = some r → r.Sum.isNaN = false →
      (id' = id → F64.le F64.zero score = true ∧ (F64.add r.Sum score).isNaN = false) →
      ∃ r', (m.Add id score).store.view id' = some r' ∧ F64.le r.Sum r'.Sum = true) := by
  have hself := (InMemoryRatingStore.Add_view_self m hwf id score).1
  have hother : ∀ id', id' ≠ id → (m.Add id score).store.view id' = m.view id' :=
    fun id' h => InMemoryRatingStore.Add_view_ne m hwf id id' score h
  have hrefl : ∀ x : F64, x.isNaN = false → F64.le x x = true := by
    intro x hx
    simp [F64.le, hx]
  refine ⟨hother, hself, ?_, ?_, ?_⟩
  · intro hall hlt id' r' hv
    by_cases hid : id' = id
    · subst hid
      rw [hself] at hv
      cases hm : m.view id' with
      | none =>
        rw [hm] at hv
        cases hv
        exact Nat.le_refl 1
      | some r =>
        rw [hm] at hv
        cases hv
        have := hlt r hm
        show 1 ≤ (r.Count + 1) % 2 ^ 32
        rw [Nat.mod_eq_of_lt (by omega)]
        omega
    · rw [hother id' hid] at hv
      exact hall id' r' hv
  · intro id' r hv hlt
    by_cases hid : id' = id
    · subst hid
      refine ⟨addStep (some r) score, by rw [hself, hv], ?_⟩
      have := hlt rfl
      show r.Count ≤ (r.Count + 1) % 2 ^ 32
      rw [Nat.mod_eq_of_lt (by omega)]
      omega
    · exact ⟨r, by rw [hother id' hid, hv], Nat.le_refl _⟩
  · intro id' r hv hnan hscore
    by_cases hid : id' = id
    · subst hid
      refine ⟨addStep (some r) score, by rw [hself, hv], ?_⟩
      obtain ⟨h0, hsum⟩ := hscore rfl
      exact F64.le_add_of_nonneg r.Sum score hnan h0 hsum
    · exact ⟨r, by rw [hother id' hid, hv], hrefl r.Sum hnan⟩

/-- C14, amended, at a concrete input: after `Add(id, 4.0)` on a fresh store,
`Add(id, 5.0)` leaves count 2 and sum 9.0, neither smaller than before. -/
theorem InMemoryRatingStore.Add_invariant_witness :
    ((NewInMemoryRatingStore.Add ratedId four).store.Add ratedId five).store.view ratedId
      = some ⟨2, nine⟩ ∧
    (∃ r', ((NewInMemoryRatingStore.Add ratedId four).store.Add ratedId five).store.view ratedId
      = some r' ∧ 1 ≤ r'.Count) ∧
    (∃ r', ((NewInMemoryRatingStore.Add ratedId four).store.Add ratedId five).store.view ratedId
      = some r' ∧ F64.le four r'.Sum = true) :=
  have h := InMemoryRatingStore.Add_invariant (NewInMemoryRatingStore.Add ratedId four).store
    (InMemoryRatingStore.WF_Add _ InMemoryRatingStore.WF_new_rating ratedId four) ratedId five
  ⟨h.2.1.trans (by decide),
    h.2.2.2.1 ratedId ⟨1, four⟩ (by decide) (fun _ => by decide),
    h.2.2.2.2 ratedId ⟨1, four⟩ (by decide) (by decide) (fun _ => ⟨by decide, by decide⟩)⟩

end GrpcLearn
